import Mathlib

/-!
Shallow embedding of the `QueryClient` data-fetching cache from
`src/content/posts/building-a-poor-mans-react-query-from-scratch/index.md`.

The source is a TypeScript class holding three maps
(`queries : Map<string, QueryState>`, `queryFns : Map<string, fn>`,
`listeners : Map<string, Set<Listener>>`) with operations `getQueryState`,
`subscribe` (returning an unsubscribe closure), `notify`, `setQueryState`,
`fetchQuery` and `invalidateQuery`.

The embedding models the maps as functions `String → Option _`, JS `Set`
iteration order as a list (insertion order, add-if-absent), and the single
`await queryFn()` suspension point by splitting `fetchQuery` into its
synchronous prefix (`fetchQuerySync`) and the completion continuation
(`completeFetchWrite`) that runs when the awaited promise settles.  The
deferred promise handed to deduplicated callers is modelled by registering a
`waiter` listener whose resolution is recorded in `waiterResults`.
A small operational layer (`Sys`, `Op`, `Sys.step`, `runOps`) interleaves
calls and completions the way the single-threaded event loop can.
-/

/-- Fetch lifecycle status, from `type QueryStatus = 'idle' | 'loading' | 'success' | 'error'`. -/
inductive QueryStatus
  | idle
  | loading
  | success
  | error
  deriving DecidableEq, Repr

/-- A JS value as stored in `data : T | undefined`; `undef` is the absent value. -/
inductive JSVal
  | undef
  | val (n : Nat)
  deriving DecidableEq, Repr

/-- A JS `Error` object, reduced to its message. -/
structure JSError where
  message : String
  deriving DecidableEq, Repr

/-- A value thrown or rejected with by a fetch function: either a real `Error`
object or any other value, carried as its `String(v)` rendering. -/
inductive Thrown
  | errObj (e : JSError)
  | other (s : String)
  deriving DecidableEq, Repr

/-- Normalization in the catch block of `fetchQuery`:
`error instanceof Error ? error : new Error(String(error))`. -/
def normalizeError : Thrown → JSError
  | Thrown.errObj e => e
  | Thrown.other s => { message := s }

/-- Per-key cached state, from `interface QueryState`. -/
structure QueryState where
  data : JSVal
  status : QueryStatus
  error : Option JSError
  lastFetchedAt : Nat
  staleTime : Nat
  deriving DecidableEq, Repr

/-- Outcome delivered to a deduplicated caller by its deferred promise:
`resolve(state.data)` or `reject(state.error)`. -/
inductive WaiterOutcome
  | resolved (v : JSVal)
  | rejected (e : Option JSError)
  deriving DecidableEq, Repr

/-- Kind of a registered listener: an external subscriber (from `subscribe`)
or the internal waiter closure created on the deduplication path. -/
inductive ListenerKind
  | ext
  | waiter
  deriving DecidableEq, Repr

/-- A listener identity registered in the per-key listener set. -/
structure ListenerEntry where
  id : Nat
  kind : ListenerKind
  deriving DecidableEq, Repr

/-- Pointwise update of a map modelled as a function into `Option`. -/
def upd {κ α : Type} [DecidableEq κ] (m : κ → Option α) (k : κ) (v : Option α) :
    κ → Option α :=
  fun k2 => if k2 = k then v else m k2

/-- The `QueryClient` instance state: the three maps of the class, plus
`waiterResults`, which records what each deduplication waiter's deferred
promise settled with (model of the promises created on the dedup path). -/
@[ext]
structure QueryClient where
  queries : String → Option QueryState
  queryFns : String → Option Nat
  listeners : String → Option (List ListenerEntry)
  waiterResults : Nat → Option WaiterOutcome

/-- A `QueryClient` with empty maps, as built by `new QueryClient()`. -/
def emptyClient : QueryClient :=
  { queries := fun _ => none
    queryFns := fun _ => none
    listeners := fun _ => none
    waiterResults := fun _ => none }

/-- Read of `getQueryState(key)`: `return this.queries.get(key)`. -/
def getQueryState (c : QueryClient) (key : String) : Option QueryState :=
  c.queries key

/-- Registration effect of `subscribe(key, listener)`: create the set if
missing, then `add` (a JS `Set` appends only if absent). -/
def subscribeAdd (c : QueryClient) (key : String) (e : ListenerEntry) : QueryClient :=
  match c.listeners key with
  | none => { c with listeners := upd c.listeners key (some [e]) }
  | some ls =>
      { c with listeners := upd c.listeners key (some (if e ∈ ls then ls else ls ++ [e])) }

/-- Effect of the closure returned by `subscribe`: `listeners.delete(listener)`,
then discard the set if it became empty. -/
def unsubscribeRun (c : QueryClient) (key : String) (e : ListenerEntry) : QueryClient :=
  match c.listeners key with
  | none => c
  | some ls =>
      if (ls.filter (fun x => decide (x ≠ e))).isEmpty then
        { c with listeners := upd c.listeners key none }
      else { c with listeners := upd c.listeners key (some (ls.filter (fun x => decide (x ≠ e)))) }

/-- What the dedup waiter closure does with a non-loading state it reads:
`if success, resolve(state.data); else if error, reject(state.error)`. -/
def waiterOutcomeOf (st : QueryState) : Option WaiterOutcome :=
  match st.status with
  | QueryStatus.success => some (WaiterOutcome.resolved st.data)
  | QueryStatus.error => some (WaiterOutcome.rejected st.error)
  | _ => none

/-- Delivery loop of `notify(key)` restricted to the listeners of this model:
external listeners have no effect on the client; each waiter closure re-reads
the state, and if it is no longer `loading`, unsubscribes itself and settles
its promise (recorded in `waiterResults`). -/
def runListeners (c : QueryClient) (key : String) : List ListenerEntry → QueryClient
  | [] => c
  | e :: rest =>
      match e.kind with
      | ListenerKind.ext => runListeners c key rest
      | ListenerKind.waiter =>
          match c.queries key with
          | none => runListeners c key rest
          | some st =>
              if st.status = QueryStatus.loading then runListeners c key rest
              else
                let c1 := unsubscribeRun c key e
                let c2 :=
                  match waiterOutcomeOf st with
                  | some r => { c1 with waiterResults := upd c1.waiterResults e.id (some r) }
                  | none => c1
                runListeners c2 key rest

/-- The private `setQueryState(key, state)`: write the map entry, then
`notify(key)`.  The returned list is the trace of notified keys (always
exactly one per call, mirroring the single `this.notify(key)`). -/
def setQueryState (c : QueryClient) (key : String) (st : QueryState) :
    QueryClient × List String :=
  let c1 : QueryClient := { c with queries := upd c.queries key (some st) }
  (runListeners c1 key ((c1.listeners key).getD []), [key])

/-- A fetch started by the fetch path of `fetchQuery`, still awaiting its
promise.  `prevData`/`prevLastFetchedAt` are the values of `existingQuery`
captured before the `loading` transition (the catch block uses them). -/
structure PendingFetch where
  key : String
  staleTime : Nat
  prevData : JSVal
  prevLastFetchedAt : Nat
  deriving DecidableEq, Repr

/-- Which of the three paths the synchronous prefix of `fetchQuery` took. -/
inductive SyncOutcome
  | cacheHit (d : JSVal)
  | dedupJoin (w : Nat)
  | startFetch (pf : PendingFetch)
  deriving DecidableEq, Repr

/-- Result of the synchronous prefix of `fetchQuery`: the updated client, the
path taken, and the keys notified during it. -/
structure FQResult where
  client : QueryClient
  outcome : SyncOutcome
  events : List String

/-- The fetch path of `fetchQuery` (reached when there is no fresh cached
value and no fetch in flight): write the `loading` state through
`setQueryState`, then call `queryFn()` (the returned `PendingFetch` stands for
the awaited promise). -/
def startFetchPath (c : QueryClient) (key : String) (existing : Option QueryState)
    (stale : Nat) : FQResult :=
  let prevData : JSVal := (existing.map (fun q => q.data)).getD JSVal.undef
  let prevLFA : Nat := (existing.map (fun q => q.lastFetchedAt)).getD 0
  let r := setQueryState c key
    { data := prevData
      status := QueryStatus.loading
      error := none
      lastFetchedAt := prevLFA
      staleTime := stale }
  { client := r.1
    outcome := SyncOutcome.startFetch
      { key := key, staleTime := stale, prevData := prevData, prevLastFetchedAt := prevLFA }
    events := r.2 }

/-- Synchronous prefix of `fetchQuery(key, queryFn, { staleTime })`, faithful
to the source order: remember `queryFn`, read `existingQuery`, freshness
check (`status === 'success' && Date.now() - lastFetchedAt < existingQuery.staleTime`),
deduplication check (`status === 'loading'`, subscribing a waiter `wid`), else
the fetch path. -/
def fetchQuerySync (c : QueryClient) (key : String) (fnId stale now wid : Nat) :
    FQResult :=
  let c1 : QueryClient := { c with queryFns := upd c.queryFns key (some fnId) }
  match c1.queries key with
  | some q =>
      if q.status = QueryStatus.success ∧ now - q.lastFetchedAt < q.staleTime then
        { client := c1, outcome := SyncOutcome.cacheHit q.data, events := [] }
      else if q.status = QueryStatus.loading then
        { client := subscribeAdd c1 key { id := wid, kind := ListenerKind.waiter }
          outcome := SyncOutcome.dedupJoin wid
          events := [] }
      else startFetchPath c1 key (some q) stale
  | none => startFetchPath c1 key none stale

/-- Result of the continuation after `await queryFn()` settles: the updated
client, the value returned / error thrown to the direct caller, and the keys
notified. -/
structure CFResult where
  client : QueryClient
  result : Except JSError JSVal
  events : List String

/-- Continuation of `fetchQuery` once the awaited `queryFn()` settles: on
success write the `success` state and return the data; on failure normalize
the thrown value, write the `error` state (restoring the captured `data` and
`lastFetchedAt`) and rethrow. -/
def completeFetchWrite (c : QueryClient) (pf : PendingFetch)
    (outcome : Except Thrown JSVal) (now : Nat) : CFResult :=
  match outcome with
  | Except.ok v =>
      let r := setQueryState c pf.key
        { data := v
          status := QueryStatus.success
          error := none
          lastFetchedAt := now
          staleTime := pf.staleTime }
      { client := r.1, result := Except.ok v, events := r.2 }
  | Except.error e =>
      let err := normalizeError e
      let r := setQueryState c pf.key
        { data := pf.prevData
          status := QueryStatus.error
          error := some err
          lastFetchedAt := pf.prevLastFetchedAt
          staleTime := pf.staleTime }
      { client := r.1, result := Except.error err, events := r.2 }

/-- An event-loop step the program can perform: start a `fetchQuery` call
(its synchronous prefix), settle one in-flight fetch, or call
`invalidateQuery`. -/
inductive Op
  | fetch (key : String) (fnId stale now : Nat)
  | complete (idx : Nat) (outcome : Except Thrown JSVal) (now : Nat)
  | invalidate (key : String) (now : Nat)

/-- Whole-system state: the client plus the in-flight fetches, with
instrumentation: the log of fetch-function invocations, the results returned
to the callers that started fetches, a counter supplying fresh waiter ids,
and a flag that is raised whenever a fetch function is invoked for a key that
already has an invocation in flight. -/
@[ext]
structure Sys where
  client : QueryClient
  pending : List PendingFetch
  fnCalls : List (String × Nat)
  completions : List (Except JSError JSVal)
  nextWaiter : Nat
  violation : Bool

/-- The system as it starts: a fresh client, nothing in flight. -/
def initSys : Sys :=
  { client := emptyClient
    pending := []
    fnCalls := []
    completions := []
    nextWaiter := 0
    violation := false }

/-- One event-loop step. `invalidate` follows the source: only when both a
state and a remembered fetch function exist, delete the state and immediately
run `fetchQuery(key, queryFn, { staleTime: queryState.staleTime })`. -/
def Sys.step (s : Sys) : Op → Sys
  | Op.fetch key fnId stale now =>
      let r := fetchQuerySync s.client key fnId stale now s.nextWaiter
      match r.outcome with
      | SyncOutcome.startFetch pf =>
          { client := r.client
            pending := s.pending ++ [pf]
            fnCalls := s.fnCalls ++ [(key, fnId)]
            completions := s.completions
            nextWaiter := s.nextWaiter + 1
            violation := s.violation || s.pending.any (fun p => p.key == key) }
      | _ => { s with client := r.client, nextWaiter := s.nextWaiter + 1 }
  | Op.complete idx outcome now =>
      match s.pending[idx]? with
      | none => s
      | some pf =>
          let r := completeFetchWrite s.client pf outcome now
          { s with
            client := r.client
            pending := s.pending.eraseIdx idx
            completions := s.completions ++ [r.result] }
  | Op.invalidate key now =>
      match s.client.queryFns key, s.client.queries key with
      | some fnId, some qs =>
          let c1 : QueryClient := { s.client with queries := upd s.client.queries key none }
          let r := fetchQuerySync c1 key fnId qs.staleTime now s.nextWaiter
          match r.outcome with
          | SyncOutcome.startFetch pf =>
              { client := r.client
                pending := s.pending ++ [pf]
                fnCalls := s.fnCalls ++ [(key, fnId)]
                completions := s.completions
                nextWaiter := s.nextWaiter + 1
                violation := s.violation || s.pending.any (fun p => p.key == key) }
          | _ => { s with client := r.client, nextWaiter := s.nextWaiter + 1 }
      | _, _ => s

/-- Run a list of event-loop steps. -/
def runOps (s : Sys) : List Op → Sys
  | [] => s
  | op :: ops => runOps (Sys.step s op) ops

/-- Waiter entries with ids `a, a+1, …, a+m-1`, in registration order. -/
def wlist (a m : Nat) : List ListenerEntry :=
  match m with
  | 0 => []
  | Nat.succ m2 => { id := a, kind := ListenerKind.waiter } :: wlist (a + 1) m2

/-- What the caller that started the fetch receives once the fetch settles:
the resolved value, or the thrown value normalized to an error. -/
def cfResultOf : Except Thrown JSVal → Except JSError JSVal
  | Except.ok v => Except.ok v
  | Except.error e => Except.error (normalizeError e)

/-- What a deduplication waiter receives once the fetch settles:
`resolve(state.data)` or `reject(state.error)` for the state the completion
wrote. -/
def wResultOf : Except Thrown JSVal → WaiterOutcome
  | Except.ok v => WaiterOutcome.resolved v
  | Except.error e => WaiterOutcome.rejected (some (normalizeError e))

/-- The system state after one `fetchQuery` call that started a fetch for `k`
from the initial state, followed by `m` further `fetchQuery` calls for `k`
that were deduplicated (each registered one waiter). -/
def joinedSys (k : String) (f stale m : Nat) : Sys :=
  { client :=
      { queries := upd (fun _ => none) k (some
          { data := JSVal.undef
            status := QueryStatus.loading
            error := none
            lastFetchedAt := 0
            staleTime := stale })
        queryFns := upd (fun _ => none) k (some f)
        listeners := if m = 0 then fun _ => none else upd (fun _ => none) k (some (wlist 1 m))
        waiterResults := fun _ => none }
    pending := [{ key := k, staleTime := stale, prevData := JSVal.undef, prevLastFetchedAt := 0 }]
    fnCalls := [(k, f)]
    completions := []
    nextWaiter := m + 1
    violation := false }

/-- Trace semantics of the `listeners.forEach((listener) => listener())` loop
of `notify(key)` when listeners may throw: `behav l = true` means listener
`l` throws when invoked.  `Set.forEach` delivers in insertion order and an
exception propagates out of `forEach` immediately, so delivery stops at the
first throwing listener.  Returns the invoked ids (in order) and whether an
exception escaped `notify`. -/
def runNotify (behav : Nat → Bool) : List ListenerEntry → List Nat × Bool
  | [] => ([], false)
  | e :: rest =>
      if behav e.id then ([e.id], true)
      else
        let r := runNotify behav rest
        (e.id :: r.1, r.2)

/-- The `notify(key)` method with throwing behaviour `behav` for the
registered listeners: `const listeners = this.listeners.get(key);
if (listeners) listeners.forEach((listener) => listener())`. -/
def notifyTrace (c : QueryClient) (behav : Nat → Bool) (key : String) :
    List Nat × Bool :=
  match c.listeners key with
  | none => ([], false)
  | some ls => runNotify behav ls

/-- True for the event-loop steps that are `fetchQuery` calls or fetch
completions (i.e. excludes `invalidateQuery`). -/
def isFC : Op → Bool
  | Op.invalidate _ _ => false
  | _ => true

/-- True unless the step is a fetch completion resolving with the absent
value `undefined`. -/
def presentOk : Op → Bool
  | Op.complete _ (Except.ok v) _ => decide (v ≠ JSVal.undef)
  | _ => true

/-- Number of in-flight fetches for key `k`. -/
def pendingFor (s : Sys) (k : String) : Nat :=
  (s.pending.filter (fun p => p.key == k)).length

/-- Whether the stored state for `k` has `status = 'loading'`. -/
def loadingAt (c : QueryClient) (k : String) : Bool :=
  match c.queries k with
  | some st => decide (st.status = QueryStatus.loading)
  | none => false

/-! Basic lemmas about the map-update helper. -/

@[simp]
theorem upd_same {κ α : Type} [DecidableEq κ] (m : κ → Option α) (k : κ) (v : Option α) :
    upd m k v k = v := by
  simp [upd]

theorem upd_ne {κ α : Type} [DecidableEq κ] (m : κ → Option α) (k k2 : κ) (v : Option α)
    (h : k2 ≠ k) : upd m k v k2 = m k2 := by
  simp [upd, h]

theorem upd_upd {κ α : Type} [DecidableEq κ] (m : κ → Option α) (k : κ) (v w : Option α) :
    upd (upd m k v) k w = upd m k w := by
  funext k2
  by_cases h : k2 = k <;> simp [upd, h]

/-! The listener-set operations leave the other two maps untouched. -/

theorem subscribeAdd_queries (c : QueryClient) (key : String) (e : ListenerEntry) :
    (subscribeAdd c key e).queries = c.queries := by
  unfold subscribeAdd
  cases c.listeners key <;> rfl

theorem subscribeAdd_queryFns (c : QueryClient) (key : String) (e : ListenerEntry) :
    (subscribeAdd c key e).queryFns = c.queryFns := by
  unfold subscribeAdd
  cases c.listeners key <;> rfl

theorem unsubscribeRun_queries (c : QueryClient) (key : String) (e : ListenerEntry) :
    (unsubscribeRun c key e).queries = c.queries := by
  unfold unsubscribeRun
  split
  · rfl
  · split <;> rfl

theorem unsubscribeRun_queryFns (c : QueryClient) (key : String) (e : ListenerEntry) :
    (unsubscribeRun c key e).queryFns = c.queryFns := by
  unfold unsubscribeRun
  split
  · rfl
  · split <;> rfl

theorem unsubscribeRun_listeners_ne (c : QueryClient) (key key2 : String) (e : ListenerEntry)
    (h : key2 ≠ key) : (unsubscribeRun c key e).listeners key2 = c.listeners key2 := by
  unfold unsubscribeRun
  split
  · rfl
  · split <;> exact upd_ne _ _ _ _ h

theorem runListeners_queries (key : String) :
    ∀ (ls : List ListenerEntry) (c : QueryClient), (runListeners c key ls).queries = c.queries := by
  intro ls
  induction ls with
  | nil => intro c; rfl
  | cons e rest ih =>
      intro c
      unfold runListeners
      cases hk : e.kind with
      | ext => exact ih c
      | waiter =>
          cases hq : c.queries key with
          | none => exact ih c
          | some st =>
              by_cases hs : st.status = QueryStatus.loading
              · simp [hs]; exact ih c
              · simp [hs]
                cases hw : waiterOutcomeOf st with
                | none => rw [ih]; exact unsubscribeRun_queries c key e
                | some r => rw [ih]; exact unsubscribeRun_queries c key e

theorem runListeners_queryFns (key : String) :
    ∀ (ls : List ListenerEntry) (c : QueryClient),
      (runListeners c key ls).queryFns = c.queryFns := by
  intro ls
  induction ls with
  | nil => intro c; rfl
  | cons e rest ih =>
      intro c
      unfold runListeners
      cases hk : e.kind with
      | ext => exact ih c
      | waiter =>
          cases hq : c.queries key with
          | none => exact ih c
          | some st =>
              by_cases hs : st.status = QueryStatus.loading
              · simp [hs]; exact ih c
              · simp [hs]
                cases hw : waiterOutcomeOf st with
                | none => rw [ih]; exact unsubscribeRun_queryFns c key e
                | some r => rw [ih]; exact unsubscribeRun_queryFns c key e

theorem runListeners_loading (key : String) :
    ∀ (ls : List ListenerEntry) (c : QueryClient) (st : QueryState),
      c.queries key = some st → st.status = QueryStatus.loading →
      runListeners c key ls = c := by
  intro ls
  induction ls with
  | nil => intro c st _ _; rfl
  | cons e rest ih =>
      intro c st hq hs
      unfold runListeners
      cases hk : e.kind with
      | ext => exact ih c st hq hs
      | waiter => rw [hq]; simp [hs]; exact ih c st hq hs

/-! The list of deduplication waiters with consecutive ids, in registration
order, and its combinatorics. -/

theorem wlist_concat : ∀ (m a : Nat),
    wlist a (m + 1) = wlist a m ++ [{ id := a + m, kind := ListenerKind.waiter }] := by
  intro m
  induction m with
  | zero => intro a; rfl
  | succ m2 ih =>
      intro a
      have h1 : wlist a (m2 + 1 + 1) =
          { id := a, kind := ListenerKind.waiter } :: wlist (a + 1) (m2 + 1) := rfl
      have h2 : wlist a (m2 + 1) =
          { id := a, kind := ListenerKind.waiter } :: wlist (a + 1) m2 := rfl
      rw [h1, ih (a + 1), h2]
      have h3 : a + 1 + m2 = a + (m2 + 1) := by omega
      rw [h3]
      rfl

theorem mem_wlist_id : ∀ (m a : Nat) (e : ListenerEntry),
    e ∈ wlist a m → a ≤ e.id ∧ e.id < a + m := by
  intro m
  induction m with
  | zero => intro a e h; simp [wlist] at h
  | succ m2 ih =>
      intro a e h
      have h2 : e = { id := a, kind := ListenerKind.waiter } ∨ e ∈ wlist (a + 1) m2 := by
        simpa [wlist] using h
      cases h2 with
      | inl he =>
          subst he
          show a ≤ a ∧ a < a + (m2 + 1)
          omega
      | inr he =>
          have h3 := ih (a + 1) e he
          omega

theorem not_mem_wlist (m a : Nat) (e : ListenerEntry) (h : a + m ≤ e.id) :
    e ∉ wlist a m := by
  intro hm
  have h2 := mem_wlist_id m a e hm
  omega

theorem filter_wlist_lt : ∀ (m a : Nat) (e : ListenerEntry), e.id < a →
    (wlist a m).filter (fun x => decide (x ≠ e)) = wlist a m := by
  intro m
  induction m with
  | zero => intro a e _; rfl
  | succ m2 ih =>
      intro a e h
      have hne : ({ id := a, kind := ListenerKind.waiter } : ListenerEntry) ≠ e := by
        intro hx
        have h4 : e.id = a := by rw [← hx]
        omega
      show List.filter _ ({ id := a, kind := ListenerKind.waiter } :: wlist (a + 1) m2) =
        { id := a, kind := ListenerKind.waiter } :: wlist (a + 1) m2
      simp [List.filter_cons, hne, ih (a + 1) e (by omega)]
      intro x hx hxe
      have h5 := mem_wlist_id m2 (a + 1) x hx
      rw [hxe] at h5
      omega

/-! Component-wise description of `setQueryState`. -/

theorem setQueryState_snd (c : QueryClient) (key : String) (st : QueryState) :
    (setQueryState c key st).2 = [key] := rfl

theorem setQueryState_fst_queries (c : QueryClient) (key : String) (st : QueryState) :
    (setQueryState c key st).1.queries = upd c.queries key (some st) := by
  unfold setQueryState
  rw [runListeners_queries]

theorem setQueryState_fst_queryFns (c : QueryClient) (key : String) (st : QueryState) :
    (setQueryState c key st).1.queryFns = c.queryFns := by
  unfold setQueryState
  rw [runListeners_queryFns]

/-! Which path the synchronous prefix of `fetchQuery` takes, as equations. -/

theorem fetchQuerySync_cacheHit_eq (c : QueryClient) (k : String) (f s now w : Nat)
    (st : QueryState) (hq : c.queries k = some st) (hs : st.status = QueryStatus.success)
    (hf : now - st.lastFetchedAt < st.staleTime) :
    fetchQuerySync c k f s now w =
      { client := { c with queryFns := upd c.queryFns k (some f) }
        outcome := SyncOutcome.cacheHit st.data
        events := [] } := by
  unfold fetchQuerySync
  simp [hq, hs, hf]

theorem fetchQuerySync_loading_eq (c : QueryClient) (k : String) (f s now w : Nat)
    (st : QueryState) (hq : c.queries k = some st) (hl : st.status = QueryStatus.loading) :
    fetchQuerySync c k f s now w =
      { client := subscribeAdd { c with queryFns := upd c.queryFns k (some f) } k
          { id := w, kind := ListenerKind.waiter }
        outcome := SyncOutcome.dedupJoin w
        events := [] } := by
  unfold fetchQuerySync
  simp [hq, hl]

theorem fetchQuerySync_start_none (c : QueryClient) (k : String) (f s now w : Nat)
    (hq : c.queries k = none) :
    fetchQuerySync c k f s now w =
      startFetchPath { c with queryFns := upd c.queryFns k (some f) } k none s := by
  unfold fetchQuerySync
  simp [hq]

theorem fetchQuerySync_start_some (c : QueryClient) (k : String) (f s now w : Nat)
    (st : QueryState) (hq : c.queries k = some st)
    (h1 : ¬(st.status = QueryStatus.success ∧ now - st.lastFetchedAt < st.staleTime))
    (h2 : st.status ≠ QueryStatus.loading) :
    fetchQuerySync c k f s now w =
      startFetchPath { c with queryFns := upd c.queryFns k (some f) } k (some st) s := by
  unfold fetchQuerySync
  simp [hq, h1, h2]

/-! Behaviour of the notify loop on a block of consecutive waiters. -/

theorem filter_wlist_self (m a : Nat) :
    (wlist a (m + 1)).filter
      (fun x => decide (x ≠ { id := a, kind := ListenerKind.waiter })) = wlist (a + 1) m := by
  show List.filter _
      ({ id := a, kind := ListenerKind.waiter } :: wlist (a + 1) m) = wlist (a + 1) m
  simp [List.filter_cons]
  intro x hx hxe
  have h5 := mem_wlist_id m (a + 1) x hx
  have h6 : x.id = a := by rw [hxe]
  omega

theorem unsub_wlist_one (c : QueryClient) (key : String) (a : Nat)
    (hl : c.listeners key = some (wlist a 1)) :
    unsubscribeRun c key { id := a, kind := ListenerKind.waiter } =
      { c with listeners := upd c.listeners key none } := by
  unfold unsubscribeRun
  simp only [hl]
  rw [filter_wlist_self 0 a]
  simp [wlist]

theorem unsub_wlist_cons (c : QueryClient) (key : String) (m a : Nat)
    (hl : c.listeners key = some (wlist a (m + 2))) :
    unsubscribeRun c key { id := a, kind := ListenerKind.waiter } =
      { c with listeners := upd c.listeners key (some (wlist (a + 1) (m + 1))) } := by
  unfold unsubscribeRun
  simp only [hl]
  rw [filter_wlist_self (m + 1) a]
  simp [wlist]

theorem runListeners_cons_waiter (c : QueryClient) (key : String) (a : Nat)
    (rest : List ListenerEntry) (st : QueryState) (wres : WaiterOutcome)
    (hq : c.queries key = some st) (hs : st.status ≠ QueryStatus.loading)
    (hw : waiterOutcomeOf st = some wres) :
    runListeners c key ({ id := a, kind := ListenerKind.waiter } :: rest) =
      runListeners
        { unsubscribeRun c key { id := a, kind := ListenerKind.waiter } with
          waiterResults :=
            upd (unsubscribeRun c key { id := a, kind := ListenerKind.waiter }).waiterResults
              a (some wres) }
        key rest := by
  simp only [runListeners]
  rw [hq]
  simp [hs, hw]

theorem runListeners_wlist : ∀ (m a : Nat) (c : QueryClient) (key : String)
    (st : QueryState) (wres : WaiterOutcome),
    c.queries key = some st → st.status ≠ QueryStatus.loading →
    waiterOutcomeOf st = some wres →
    c.listeners key = some (wlist a (m + 1)) →
    runListeners c key (wlist a (m + 1)) =
      { c with
        listeners := upd c.listeners key none
        waiterResults := fun i =>
          if a ≤ i ∧ i < a + (m + 1) then some wres else c.waiterResults i } := by
  intro m
  induction m with
  | zero =>
      intro a c key st wres hq hs hw hl
      show runListeners c key ({ id := a, kind := ListenerKind.waiter } :: []) = _
      rw [runListeners_cons_waiter c key a [] st wres hq hs hw]
      rw [unsub_wlist_one c key a hl]
      show ({ c with listeners := upd c.listeners key none, waiterResults := upd c.waiterResults a (some wres) } : QueryClient) = _
      apply QueryClient.ext
      · rfl
      · rfl
      · rfl
      · funext i
        by_cases hi : i = a
        · have hr : a ≤ a ∧ a < a + (0 + 1) := by omega
          simp [upd, hi, hr]
        · have hr : ¬(a ≤ i ∧ i < a + (0 + 1)) := by omega
          simp [upd, hi, hr]
  | succ m2 ih =>
      intro a c key st wres hq hs hw hl
      show runListeners c key
        ({ id := a, kind := ListenerKind.waiter } :: wlist (a + 1) (m2 + 1)) = _
      rw [runListeners_cons_waiter c key a (wlist (a + 1) (m2 + 1)) st wres hq hs hw]
      rw [unsub_wlist_cons c key m2 a hl]
      rw [ih (a + 1)
        { c with listeners := upd c.listeners key (some (wlist (a + 1) (m2 + 1))), waiterResults := upd c.waiterResults a (some wres) }
        key st wres hq hs hw (by simp)]
      apply QueryClient.ext
      · rfl
      · rfl
      · show upd (upd c.listeners key (some (wlist (a + 1) (m2 + 1)))) key none =
          upd c.listeners key none
        rw [upd_upd]
      · funext i
        show (if a + 1 ≤ i ∧ i < a + 1 + (m2 + 1) then some wres
              else upd c.waiterResults a (some wres) i) =
          (if a ≤ i ∧ i < a + (m2 + 1 + 1) then some wres else c.waiterResults i)
        by_cases hi : i = a
        · have hr : ¬(a + 1 ≤ a ∧ a < a + 1 + (m2 + 1)) := by omega
          have hr3 : a ≤ a ∧ a < a + (m2 + 1 + 1) := by omega
          simp [upd, hi, hr, hr3]
        · by_cases hr : a ≤ i ∧ i < a + (m2 + 1 + 1)
          · have hr2 : a + 1 ≤ i ∧ i < a + 1 + (m2 + 1) := by omega
            simp [hr, hr2]
          · have hr2 : ¬(a + 1 ≤ i ∧ i < a + 1 + (m2 + 1)) := by omega
            simp [hr, hr2, upd, hi]

/-! Equations for `subscribeAdd` and composition of runs. -/

theorem subscribeAdd_none_eq (c : QueryClient) (k : String) (e : ListenerEntry)
    (h : c.listeners k = none) :
    subscribeAdd c k e = { c with listeners := upd c.listeners k (some [e]) } := by
  unfold subscribeAdd
  simp only [h]

theorem subscribeAdd_not_mem_eq (c : QueryClient) (k : String) (e : ListenerEntry)
    (ls : List ListenerEntry) (h : c.listeners k = some ls) (hm : e ∉ ls) :
    subscribeAdd c k e = { c with listeners := upd c.listeners k (some (ls ++ [e])) } := by
  unfold subscribeAdd
  simp only [h]
  simp [hm]

theorem runOps_append (l1 : List Op) : ∀ (s : Sys) (l2 : List Op),
    runOps s (l1 ++ l2) = runOps (runOps s l1) l2 := by
  induction l1 with
  | nil => intro s l2; rfl
  | cons op rest ih => intro s l2; exact ih (Sys.step s op) l2

theorem step_fetch_init (k : String) (f stale t : Nat) :
    Sys.step initSys (Op.fetch k f stale t) = joinedSys k f stale 0 := rfl

theorem step_fetch_joined (k : String) (f stale t m : Nat) :
    Sys.step (joinedSys k f stale m) (Op.fetch k f stale t) = joinedSys k f stale (m + 1) := by
  have hq : (joinedSys k f stale m).client.queries k = some { data := JSVal.undef, status := QueryStatus.loading, error := none, lastFetchedAt := 0, staleTime := stale } := by
    simp [joinedSys]
  have hfq := fetchQuerySync_loading_eq (joinedSys k f stale m).client k f stale t
    ((joinedSys k f stale m).nextWaiter) _ hq rfl
  have hcl : subscribeAdd { (joinedSys k f stale m).client with queryFns := upd (joinedSys k f stale m).client.queryFns k (some f) } k { id := (joinedSys k f stale m).nextWaiter, kind := ListenerKind.waiter } = (joinedSys k f stale (m + 1)).client := by
    cases m with
    | zero =>
        rw [subscribeAdd_none_eq _ k _ rfl]
        apply QueryClient.ext
        · rfl
        · show upd (upd (fun _ => none) k (some f)) k (some f) = upd (fun _ => none) k (some f)
          rw [upd_upd]
        · rfl
        · rfl
    | succ m2 =>
        have hls : ({ (joinedSys k f stale (m2 + 1)).client with queryFns := upd (joinedSys k f stale (m2 + 1)).client.queryFns k (some f) } : QueryClient).listeners k = some (wlist 1 (m2 + 1)) := by
          show (joinedSys k f stale (m2 + 1)).client.listeners k = some (wlist 1 (m2 + 1))
          simp [joinedSys]
        have hnm : ({ id := (joinedSys k f stale (m2 + 1)).nextWaiter, kind := ListenerKind.waiter } : ListenerEntry) ∉ wlist 1 (m2 + 1) := by
          apply not_mem_wlist
          show 1 + (m2 + 1) ≤ m2 + 1 + 1
          omega
        rw [subscribeAdd_not_mem_eq _ k _ _ hls hnm]
        apply QueryClient.ext
        · rfl
        · show upd (upd (fun _ => none) k (some f)) k (some f) = upd (fun _ => none) k (some f)
          rw [upd_upd]
        · show upd (upd (fun _ => none) k (some (wlist 1 (m2 + 1)))) k (some (wlist 1 (m2 + 1) ++ [{ id := m2 + 1 + 1, kind := ListenerKind.waiter }])) = upd (fun _ => none) k (some (wlist 1 (m2 + 1 + 1)))
          rw [upd_upd]
          rw [wlist_concat (m2 + 1) 1]
          have h3 : 1 + (m2 + 1) = m2 + 1 + 1 := by omega
          rw [h3]
        · rfl
  unfold Sys.step
  simp only [hfq]
  rw [hcl]
  apply Sys.ext <;> rfl

theorem runOps_joins (k : String) (f stale t : Nat) : ∀ (m : Nat),
    runOps (Sys.step initSys (Op.fetch k f stale t))
      (List.replicate m (Op.fetch k f stale t)) = joinedSys k f stale m := by
  intro m
  induction m with
  | zero => exact step_fetch_init k f stale t
  | succ m2 ih =>
      rw [List.replicate_succ']
      rw [runOps_append]
      rw [ih]
      exact step_fetch_joined k f stale t m2

theorem completeFetchWrite_joined (k : String) (f stale m t2 : Nat) (oc : Except Thrown JSVal) :
    (completeFetchWrite (joinedSys k f stale m).client { key := k, staleTime := stale, prevData := JSVal.undef, prevLastFetchedAt := 0 } oc t2).result = cfResultOf oc
    ∧ (completeFetchWrite (joinedSys k f stale m).client { key := k, staleTime := stale, prevData := JSVal.undef, prevLastFetchedAt := 0 } oc t2).client.listeners k = none
    ∧ ∀ i : Nat, 1 ≤ i → i < 1 + m →
      (completeFetchWrite (joinedSys k f stale m).client { key := k, staleTime := stale, prevData := JSVal.undef, prevLastFetchedAt := 0 } oc t2).client.waiterResults i = some (wResultOf oc) := by
  cases m with
  | zero =>
      refine ⟨?_, ?_, ?_⟩
      · cases oc <;> rfl
      · cases oc <;> rfl
      · intro i h1 h2
        exact absurd h2 (by omega)
  | succ m2 =>
      have hls : (joinedSys k f stale (m2 + 1)).client.listeners k = some (wlist 1 (m2 + 1)) := by
        simp [joinedSys]
      have hsnap : (((joinedSys k f stale (m2 + 1)).client.listeners k).getD []) = wlist 1 (m2 + 1) := by
        rw [hls]
        rfl
      cases oc with
      | ok v =>
          have hone := runListeners_wlist m2 1
            { (joinedSys k f stale (m2 + 1)).client with queries := upd (joinedSys k f stale (m2 + 1)).client.queries k (some { data := v, status := QueryStatus.success, error := none, lastFetchedAt := t2, staleTime := stale }) }
            k
            { data := v, status := QueryStatus.success, error := none, lastFetchedAt := t2, staleTime := stale }
            (WaiterOutcome.resolved v)
            (by simp) (by simp) rfl hls
          have heq : (completeFetchWrite (joinedSys k f stale (m2 + 1)).client { key := k, staleTime := stale, prevData := JSVal.undef, prevLastFetchedAt := 0 } (Except.ok v) t2).client = runListeners { (joinedSys k f stale (m2 + 1)).client with queries := upd (joinedSys k f stale (m2 + 1)).client.queries k (some { data := v, status := QueryStatus.success, error := none, lastFetchedAt := t2, staleTime := stale }) } k (wlist 1 (m2 + 1)) := by
            show runListeners { (joinedSys k f stale (m2 + 1)).client with queries := upd (joinedSys k f stale (m2 + 1)).client.queries k (some { data := v, status := QueryStatus.success, error := none, lastFetchedAt := t2, staleTime := stale }) } k (((joinedSys k f stale (m2 + 1)).client.listeners k).getD []) = _
            rw [hsnap]
          refine ⟨rfl, ?_, ?_⟩
          · rw [heq, hone]
            simp
          · intro i h1 h2
            rw [heq, hone]
            have hr : 1 ≤ i ∧ i < 1 + (m2 + 1) := by omega
            simp [hr]
            rfl
      | error e =>
          have hone := runListeners_wlist m2 1
            { (joinedSys k f stale (m2 + 1)).client with queries := upd (joinedSys k f stale (m2 + 1)).client.queries k (some { data := JSVal.undef, status := QueryStatus.error, error := some (normalizeError e), lastFetchedAt := 0, staleTime := stale }) }
            k
            { data := JSVal.undef, status := QueryStatus.error, error := some (normalizeError e), lastFetchedAt := 0, staleTime := stale }
            (WaiterOutcome.rejected (some (normalizeError e)))
            (by simp) (by simp) rfl hls
          have heq : (completeFetchWrite (joinedSys k f stale (m2 + 1)).client { key := k, staleTime := stale, prevData := JSVal.undef, prevLastFetchedAt := 0 } (Except.error e) t2).client = runListeners { (joinedSys k f stale (m2 + 1)).client with queries := upd (joinedSys k f stale (m2 + 1)).client.queries k (some { data := JSVal.undef, status := QueryStatus.error, error := some (normalizeError e), lastFetchedAt := 0, staleTime := stale }) } k (wlist 1 (m2 + 1)) := by
            show runListeners { (joinedSys k f stale (m2 + 1)).client with queries := upd (joinedSys k f stale (m2 + 1)).client.queries k (some { data := JSVal.undef, status := QueryStatus.error, error := some (normalizeError e), lastFetchedAt := 0, staleTime := stale }) } k (((joinedSys k f stale (m2 + 1)).client.listeners k).getD []) = _
            rw [hsnap]
          refine ⟨rfl, ?_, ?_⟩
          · rw [heq, hone]
            simp
          · intro i h1 h2
            rw [heq, hone]
            have hr : 1 ≤ i ∧ i < 1 + (m2 + 1) := by omega
            simp [hr]
            rfl

/-- C1: when a key's state has `status = 'loading'`, `fetchQuery` takes the
deduplication path: the fetch function is not invoked (the outcome is
`dedupJoin`, nothing is added to the in-flight set, no notification fires),
the query state is untouched, and an internal waiter listener is subscribed.
Once the in-flight fetch settles and the state leaves `loading`, each
waiter's deferred promise resolves with the state's `data` on `success` and
rejects with the state's `error` on `error`, unsubscribing itself either
way.  Consequently `n ≥ 1` concurrent `fetchQuery` calls for one key from an
empty cache followed by the fetch completion invoke the fetch function
exactly once, the starting caller receives the outcome, every deduplicated
caller receives the same outcome, and all waiters have unsubscribed. -/
theorem fetchQuery_dedup :
    (∀ (c : QueryClient) (k : String) (f s now w : Nat) (st : QueryState),
      c.queries k = some st → st.status = QueryStatus.loading →
      fetchQuerySync c k f s now w =
        { client := subscribeAdd { c with queryFns := upd c.queryFns k (some f) } k { id := w, kind := ListenerKind.waiter }, outcome := SyncOutcome.dedupJoin w, events := [] })
    ∧ (∀ (n : Nat) (k : String) (f stale t t2 : Nat) (oc : Except Thrown JSVal), 1 ≤ n →
      (runOps initSys (List.replicate n (Op.fetch k f stale t) ++ [Op.complete 0 oc t2])).fnCalls = [(k, f)]
      ∧ (runOps initSys (List.replicate n (Op.fetch k f stale t) ++ [Op.complete 0 oc t2])).completions = [cfResultOf oc]
      ∧ (∀ i : Nat, 1 ≤ i → i < n →
          (runOps initSys (List.replicate n (Op.fetch k f stale t) ++ [Op.complete 0 oc t2])).client.waiterResults i = some (wResultOf oc))
      ∧ (runOps initSys (List.replicate n (Op.fetch k f stale t) ++ [Op.complete 0 oc t2])).client.listeners k = none) := by
  constructor
  · intro c k f s now w st hq hl
    exact fetchQuerySync_loading_eq c k f s now w st hq hl
  · intro n k f stale t t2 oc hn
    cases n with
    | zero => exact absurd hn (by omega)
    | succ m =>
        have hrun : runOps initSys (List.replicate (m + 1) (Op.fetch k f stale t) ++ [Op.complete 0 oc t2]) = Sys.step (joinedSys k f stale m) (Op.complete 0 oc t2) := by
          rw [runOps_append]
          have hjoin : runOps initSys (List.replicate (m + 1) (Op.fetch k f stale t)) = joinedSys k f stale m := by
            rw [List.replicate_succ]
            exact runOps_joins k f stale t m
          rw [hjoin]
          rfl
        rw [hrun]
        have hc := completeFetchWrite_joined k f stale m t2 oc
        refine ⟨rfl, ?_, ?_, ?_⟩
        · show [(completeFetchWrite (joinedSys k f stale m).client { key := k, staleTime := stale, prevData := JSVal.undef, prevLastFetchedAt := 0 } oc t2).result] = [cfResultOf oc]
          rw [hc.1]
        · intro i h1 h2
          show (completeFetchWrite (joinedSys k f stale m).client { key := k, staleTime := stale, prevData := JSVal.undef, prevLastFetchedAt := 0 } oc t2).client.waiterResults i = some (wResultOf oc)
          exact hc.2.2 i h1 (by omega)
        · show (completeFetchWrite (joinedSys k f stale m).client { key := k, staleTime := stale, prevData := JSVal.undef, prevLastFetchedAt := 0 } oc t2).client.listeners k = none
          exact hc.2.1

/-- Witness for C1 at `n = 2`: two concurrent calls, one fetch-function
invocation, the second caller's waiter resolved with the fetched value. -/
theorem fetchQuery_dedup_witness :
    (runOps initSys (List.replicate 2 (Op.fetch "a" 1 0 0) ++ [Op.complete 0 (Except.ok (JSVal.val 7)) 5])).fnCalls = [("a", 1)]
    ∧ (runOps initSys (List.replicate 2 (Op.fetch "a" 1 0 0) ++ [Op.complete 0 (Except.ok (JSVal.val 7)) 5])).client.waiterResults 1 = some (WaiterOutcome.resolved (JSVal.val 7))
    ∧ (runOps initSys (List.replicate 2 (Op.fetch "a" 1 0 0) ++ [Op.complete 0 (Except.ok (JSVal.val 7)) 5])).client.listeners "a" = none := by
  have h := fetchQuery_dedup.2 2 "a" 1 0 0 5 (Except.ok (JSVal.val 7)) (by omega)
  exact ⟨h.1, h.2.2.1 1 (by omega) (by omega), h.2.2.2⟩

/-! Component-wise descriptions of the two completion branches. -/

theorem completeFetchWrite_ok (c : QueryClient) (pf : PendingFetch) (v : JSVal) (now : Nat) :
    (completeFetchWrite c pf (Except.ok v) now).result = Except.ok v
    ∧ (completeFetchWrite c pf (Except.ok v) now).client.queries = upd c.queries pf.key (some { data := v, status := QueryStatus.success, error := none, lastFetchedAt := now, staleTime := pf.staleTime })
    ∧ (completeFetchWrite c pf (Except.ok v) now).events = [pf.key] := by
  refine ⟨rfl, ?_, rfl⟩
  show (setQueryState c pf.key _).1.queries = _
  rw [setQueryState_fst_queries]

theorem completeFetchWrite_error (c : QueryClient) (pf : PendingFetch) (th : Thrown) (now : Nat) :
    (completeFetchWrite c pf (Except.error th) now).result = Except.error (normalizeError th)
    ∧ (completeFetchWrite c pf (Except.error th) now).client.queries = upd c.queries pf.key (some { data := pf.prevData, status := QueryStatus.error, error := some (normalizeError th), lastFetchedAt := pf.prevLastFetchedAt, staleTime := pf.staleTime })
    ∧ (completeFetchWrite c pf (Except.error th) now).events = [pf.key] := by
  refine ⟨rfl, ?_, rfl⟩
  show (setQueryState c pf.key _).1.queries = _
  rw [setQueryState_fst_queries]

/-- C2 counterexample: the freshness check compares against the staleTime
stored in the entry, not against the `staleTime` passed to the current call.
A first call with `staleTime = 0` succeeds at time 100 (storing
`staleTime = 0`); a second call at time 101 with `staleTime = 1000` has
`t1 - t0 = 1 < 1000`, yet it does not return the cached value: it takes the
fetch path and invokes its fetch function (a second invocation). -/
theorem fetchQuery_freshness_cex :
    (runOps initSys [Op.fetch "a" 1 0 100, Op.complete 0 (Except.ok (JSVal.val 5)) 100]).client.queries "a" = some { data := JSVal.val 5, status := QueryStatus.success, error := none, lastFetchedAt := 100, staleTime := 0 }
    ∧ (101 : Nat) - 100 < 1000
    ∧ (fetchQuerySync (runOps initSys [Op.fetch "a" 1 0 100, Op.complete 0 (Except.ok (JSVal.val 5)) 100]).client "a" 2 1000 101 9).outcome = SyncOutcome.startFetch { key := "a", staleTime := 1000, prevData := JSVal.val 5, prevLastFetchedAt := 100 }
    ∧ (runOps initSys [Op.fetch "a" 1 0 100, Op.complete 0 (Except.ok (JSVal.val 5)) 100, Op.fetch "a" 2 1000 101]).fnCalls = [("a", 1), ("a", 2)] := by
  refine ⟨by decide, by decide, by decide, by decide⟩

/-- C2 (amended): when a key's state has `status = 'success'` and the call
arrives within the staleTime stored in that state (rather than the staleTime
passed to the call), `fetchQuery` returns the cached `data` immediately, does
not invoke the fetch function, performs no query-state mutation and no
notification, and still remembers the supplied fetch function for the key. -/
theorem fetchQuery_freshness_stored (c : QueryClient) (k : String) (f s now w : Nat)
    (st : QueryState) (hq : c.queries k = some st) (hs : st.status = QueryStatus.success)
    (hf : now - st.lastFetchedAt < st.staleTime) :
    fetchQuerySync c k f s now w =
      { client := { c with queryFns := upd c.queryFns k (some f) }, outcome := SyncOutcome.cacheHit st.data, events := [] }
    ∧ (fetchQuerySync c k f s now w).client.queries = c.queries
    ∧ (fetchQuerySync c k f s now w).client.listeners = c.listeners
    ∧ (fetchQuerySync c k f s now w).client.queryFns k = some f := by
  have h := fetchQuerySync_cacheHit_eq c k f s now w st hq hs hf
  refine ⟨h, by rw [h], by rw [h], by rw [h]; simp⟩

/-- Witness for C2 (amended): a concrete reachable state with a fresh success
entry, where the next call is a pure cache hit. -/
theorem fetchQuery_freshness_stored_witness :
    (fetchQuerySync (runOps initSys [Op.fetch "a" 1 50 100, Op.complete 0 (Except.ok (JSVal.val 5)) 100]).client "a" 2 7 101 9).outcome = SyncOutcome.cacheHit (JSVal.val 5)
    ∧ (fetchQuerySync (runOps initSys [Op.fetch "a" 1 50 100, Op.complete 0 (Except.ok (JSVal.val 5)) 100]).client "a" 2 7 101 9).events = [] := by
  have h := (fetchQuery_freshness_stored
    (runOps initSys [Op.fetch "a" 1 50 100, Op.complete 0 (Except.ok (JSVal.val 5)) 100]).client
    "a" 2 7 101 9
    { data := JSVal.val 5, status := QueryStatus.success, error := none, lastFetchedAt := 100, staleTime := 50 }
    (by decide) rfl (by decide)).1
  rw [h]
  exact ⟨rfl, rfl⟩

theorem startFetchPath_client_queries (c : QueryClient) (k : String) (ex : Option QueryState) (stale : Nat) :
    (startFetchPath c k ex stale).client.queries = upd c.queries k (some { data := (ex.map (fun q => q.data)).getD JSVal.undef, status := QueryStatus.loading, error := none, lastFetchedAt := (ex.map (fun q => q.lastFetchedAt)).getD 0, staleTime := stale }) := by
  show (setQueryState c k _).1.queries = _
  rw [setQueryState_fst_queries]

/-- C4: when the fetch path is taken and the awaited fetch function fails
with `th`, `fetchQuery` rethrows `th` normalized to an error object (an
`Error` value is propagated as-is, any other thrown value `v` becomes an
error with message `String(v)`, so a rejection with `"boom"` yields message
`"boom"`), and the stored state afterwards has `status = 'error'` with that
error, `data` equal to whatever it was before the attempt, and
`lastFetchedAt` unchanged, as captured before the attempt. -/
theorem fetchQuery_error_path (c : QueryClient) (k : String) (f s now w now2 : Nat) (th : Thrown)
    (hpath : ∀ st, c.queries k = some st → st.status ≠ QueryStatus.loading ∧ ¬(st.status = QueryStatus.success ∧ now - st.lastFetchedAt < st.staleTime)) :
    (fetchQuerySync c k f s now w).outcome = SyncOutcome.startFetch { key := k, staleTime := s, prevData := ((c.queries k).map (fun q => q.data)).getD JSVal.undef, prevLastFetchedAt := ((c.queries k).map (fun q => q.lastFetchedAt)).getD 0 }
    ∧ (completeFetchWrite (fetchQuerySync c k f s now w).client { key := k, staleTime := s, prevData := ((c.queries k).map (fun q => q.data)).getD JSVal.undef, prevLastFetchedAt := ((c.queries k).map (fun q => q.lastFetchedAt)).getD 0 } (Except.error th) now2).result = Except.error (normalizeError th)
    ∧ (completeFetchWrite (fetchQuerySync c k f s now w).client { key := k, staleTime := s, prevData := ((c.queries k).map (fun q => q.data)).getD JSVal.undef, prevLastFetchedAt := ((c.queries k).map (fun q => q.lastFetchedAt)).getD 0 } (Except.error th) now2).client.queries k = some { data := ((c.queries k).map (fun q => q.data)).getD JSVal.undef, status := QueryStatus.error, error := some (normalizeError th), lastFetchedAt := ((c.queries k).map (fun q => q.lastFetchedAt)).getD 0, staleTime := s }
    ∧ (normalizeError (Thrown.other "boom")).message = "boom"
    ∧ (∀ e0 : JSError, normalizeError (Thrown.errObj e0) = e0) := by
  have h1 : (fetchQuerySync c k f s now w).outcome = SyncOutcome.startFetch { key := k, staleTime := s, prevData := ((c.queries k).map (fun q => q.data)).getD JSVal.undef, prevLastFetchedAt := ((c.queries k).map (fun q => q.lastFetchedAt)).getD 0 } := by
    cases hq : c.queries k with
    | none => rw [fetchQuerySync_start_none c k f s now w hq]; rfl
    | some st =>
        rw [fetchQuerySync_start_some c k f s now w st hq (hpath st hq).2 (hpath st hq).1]
        rfl
  refine ⟨h1, (completeFetchWrite_error _ _ th now2).1, ?_, rfl, fun e0 => rfl⟩
  rw [(completeFetchWrite_error (fetchQuerySync c k f s now w).client { key := k, staleTime := s, prevData := ((c.queries k).map (fun q => q.data)).getD JSVal.undef, prevLastFetchedAt := ((c.queries k).map (fun q => q.lastFetchedAt)).getD 0 } th now2).2.1]
  simp

/-- Witness for C4 at a fresh key with a fetch rejecting the plain value
`"boom"`. -/
theorem fetchQuery_error_path_witness :
    (completeFetchWrite (fetchQuerySync emptyClient "a" 1 0 0 0).client { key := "a", staleTime := 0, prevData := JSVal.undef, prevLastFetchedAt := 0 } (Except.error (Thrown.other "boom")) 9).result = Except.error { message := "boom" }
    ∧ (completeFetchWrite (fetchQuerySync emptyClient "a" 1 0 0 0).client { key := "a", staleTime := 0, prevData := JSVal.undef, prevLastFetchedAt := 0 } (Except.error (Thrown.other "boom")) 9).client.queries "a" = some { data := JSVal.undef, status := QueryStatus.error, error := some { message := "boom" }, lastFetchedAt := 0, staleTime := 0 } := by
  have h := fetchQuery_error_path emptyClient "a" 1 0 0 0 9 (Thrown.other "boom")
    (fun st hst => Option.noConfusion hst)
  exact ⟨h.2.1, h.2.2.1⟩

/-- C5: when the fetch path is taken and the awaited fetch function resolves
with `v`, `fetchQuery` writes `status = 'success'`, `data = v`,
`error = null`, `lastFetchedAt = completion time` and `staleTime` as passed,
through a single `setQueryState` that notifies `k` exactly once, and returns
`v` to the caller. -/
theorem fetchQuery_success_path (c : QueryClient) (k : String) (f s now w now2 : Nat) (v : JSVal)
    (hpath : ∀ st, c.queries k = some st → st.status ≠ QueryStatus.loading ∧ ¬(st.status = QueryStatus.success ∧ now - st.lastFetchedAt < st.staleTime)) :
    (fetchQuerySync c k f s now w).outcome = SyncOutcome.startFetch { key := k, staleTime := s, prevData := ((c.queries k).map (fun q => q.data)).getD JSVal.undef, prevLastFetchedAt := ((c.queries k).map (fun q => q.lastFetchedAt)).getD 0 }
    ∧ (completeFetchWrite (fetchQuerySync c k f s now w).client { key := k, staleTime := s, prevData := ((c.queries k).map (fun q => q.data)).getD JSVal.undef, prevLastFetchedAt := ((c.queries k).map (fun q => q.lastFetchedAt)).getD 0 } (Except.ok v) now2).client.queries k = some { data := v, status := QueryStatus.success, error := none, lastFetchedAt := now2, staleTime := s }
    ∧ (completeFetchWrite (fetchQuerySync c k f s now w).client { key := k, staleTime := s, prevData := ((c.queries k).map (fun q => q.data)).getD JSVal.undef, prevLastFetchedAt := ((c.queries k).map (fun q => q.lastFetchedAt)).getD 0 } (Except.ok v) now2).result = Except.ok v
    ∧ (completeFetchWrite (fetchQuerySync c k f s now w).client { key := k, staleTime := s, prevData := ((c.queries k).map (fun q => q.data)).getD JSVal.undef, prevLastFetchedAt := ((c.queries k).map (fun q => q.lastFetchedAt)).getD 0 } (Except.ok v) now2).events = [k] := by
  have h1 : (fetchQuerySync c k f s now w).outcome = SyncOutcome.startFetch { key := k, staleTime := s, prevData := ((c.queries k).map (fun q => q.data)).getD JSVal.undef, prevLastFetchedAt := ((c.queries k).map (fun q => q.lastFetchedAt)).getD 0 } := by
    cases hq : c.queries k with
    | none => rw [fetchQuerySync_start_none c k f s now w hq]; rfl
    | some st =>
        rw [fetchQuerySync_start_some c k f s now w st hq (hpath st hq).2 (hpath st hq).1]
        rfl
  refine ⟨h1, ?_, (completeFetchWrite_ok _ _ v now2).1, (completeFetchWrite_ok _ _ v now2).2.2⟩
  rw [(completeFetchWrite_ok (fetchQuerySync c k f s now w).client { key := k, staleTime := s, prevData := ((c.queries k).map (fun q => q.data)).getD JSVal.undef, prevLastFetchedAt := ((c.queries k).map (fun q => q.lastFetchedAt)).getD 0 } v now2).2.1]
  simp

/-- Witness for C5 at a fresh key with a fetch resolving to `5`. -/
theorem fetchQuery_success_path_witness :
    (completeFetchWrite (fetchQuerySync emptyClient "a" 1 30 0 0).client { key := "a", staleTime := 30, prevData := JSVal.undef, prevLastFetchedAt := 0 } (Except.ok (JSVal.val 5)) 9).client.queries "a" = some { data := JSVal.val 5, status := QueryStatus.success, error := none, lastFetchedAt := 9, staleTime := 30 }
    ∧ (completeFetchWrite (fetchQuerySync emptyClient "a" 1 30 0 0).client { key := "a", staleTime := 30, prevData := JSVal.undef, prevLastFetchedAt := 0 } (Except.ok (JSVal.val 5)) 9).result = Except.ok (JSVal.val 5)
    ∧ (completeFetchWrite (fetchQuerySync emptyClient "a" 1 30 0 0).client { key := "a", staleTime := 30, prevData := JSVal.undef, prevLastFetchedAt := 0 } (Except.ok (JSVal.val 5)) 9).events = ["a"] := by
  have h := fetchQuery_success_path emptyClient "a" 1 30 0 0 9 (JSVal.val 5)
    (fun st hst => Option.noConfusion hst)
  exact ⟨h.2.1, h.2.2.1, h.2.2.2⟩

/-- C10: every write performed by the fetch path stores the `staleTime`
passed to the call that made the write — the `loading` transition stores it,
and both completion writes (success and error) store the `staleTime` carried
from that call, overwriting the previously stored value even when the fetch
fails — and the freshness decision of a later call compares the elapsed time
against the stored `staleTime` (the one of the call that most recently wrote
the state), independently of the `staleTime` passed to the later call. -/
theorem staleTime_overwrite :
    (∀ (c : QueryClient) (k : String) (f s now w : Nat),
      (∀ st, c.queries k = some st → st.status ≠ QueryStatus.loading ∧ ¬(st.status = QueryStatus.success ∧ now - st.lastFetchedAt < st.staleTime)) →
      (fetchQuerySync c k f s now w).outcome = SyncOutcome.startFetch { key := k, staleTime := s, prevData := ((c.queries k).map (fun q => q.data)).getD JSVal.undef, prevLastFetchedAt := ((c.queries k).map (fun q => q.lastFetchedAt)).getD 0 }
      ∧ (fetchQuerySync c k f s now w).client.queries k = some { data := ((c.queries k).map (fun q => q.data)).getD JSVal.undef, status := QueryStatus.loading, error := none, lastFetchedAt := ((c.queries k).map (fun q => q.lastFetchedAt)).getD 0, staleTime := s })
    ∧ (∀ (d : QueryClient) (pf : PendingFetch) (oc : Except Thrown JSVal) (now2 : Nat),
        ∃ st2 : QueryState, (completeFetchWrite d pf oc now2).client.queries pf.key = some st2 ∧ st2.staleTime = pf.staleTime)
    ∧ (∀ (c : QueryClient) (k : String) (f s now w : Nat) (st : QueryState),
        c.queries k = some st → st.status = QueryStatus.success →
        ((fetchQuerySync c k f s now w).outcome = SyncOutcome.cacheHit st.data ↔ now - st.lastFetchedAt < st.staleTime)) := by
  refine ⟨?_, ?_, ?_⟩
  · intro c k f s now w hpath
    cases hq : c.queries k with
    | none =>
        rw [fetchQuerySync_start_none c k f s now w hq]
        refine ⟨rfl, ?_⟩
        rw [startFetchPath_client_queries]
        simp
    | some st =>
        rw [fetchQuerySync_start_some c k f s now w st hq (hpath st hq).2 (hpath st hq).1]
        refine ⟨rfl, ?_⟩
        rw [startFetchPath_client_queries]
        simp
  · intro d pf oc now2
    cases oc with
    | ok v =>
        refine ⟨{ data := v, status := QueryStatus.success, error := none, lastFetchedAt := now2, staleTime := pf.staleTime }, ?_, rfl⟩
        rw [(completeFetchWrite_ok d pf v now2).2.1]
        simp
    | error e =>
        refine ⟨{ data := pf.prevData, status := QueryStatus.error, error := some (normalizeError e), lastFetchedAt := pf.prevLastFetchedAt, staleTime := pf.staleTime }, ?_, rfl⟩
        rw [(completeFetchWrite_error d pf e now2).2.1]
        simp
  · intro c k f s now w st hq hs
    constructor
    · intro hout
      by_contra hnf
      have h2 : st.status ≠ QueryStatus.loading := by rw [hs]; intro hx; cases hx
      have h1 : ¬(st.status = QueryStatus.success ∧ now - st.lastFetchedAt < st.staleTime) := by
        intro hx
        exact hnf hx.2
      rw [fetchQuerySync_start_some c k f s now w st hq h1 h2] at hout
      cases hout
    · intro hf
      rw [fetchQuerySync_cacheHit_eq c k f s now w st hq hs hf]

/-- Witness for C10: the loading write stores the passed staleTime on a fresh
key, and a later call's freshness decision is governed by the stored
staleTime on a concrete reachable state. -/
theorem staleTime_overwrite_witness :
    (fetchQuerySync emptyClient "a" 1 42 0 0).client.queries "a" = some { data := JSVal.undef, status := QueryStatus.loading, error := none, lastFetchedAt := 0, staleTime := 42 }
    ∧ ((fetchQuerySync (runOps initSys [Op.fetch "a" 1 50 100, Op.complete 0 (Except.ok (JSVal.val 5)) 100]).client "a" 2 7 101 9).outcome = SyncOutcome.cacheHit (JSVal.val 5) ↔ (101 : Nat) - 100 < 50) := by
  refine ⟨(staleTime_overwrite.1 emptyClient "a" 1 42 0 0 (fun st hst => Option.noConfusion hst)).2, ?_⟩
  exact staleTime_overwrite.2.2 (runOps initSys [Op.fetch "a" 1 50 100, Op.complete 0 (Except.ok (JSVal.val 5)) 100]).client "a" 2 7 101 9 { data := JSVal.val 5, status := QueryStatus.success, error := none, lastFetchedAt := 100, staleTime := 50 } (by decide) rfl

/-- C6 counterexample: `notify` delivers via `listeners.forEach((l) => l())`
with no per-listener error isolation.  With listeners `0` and `1` registered
for `"a"` in that order and listener `0` throwing, only `[0]` is invoked and
the exception escapes: listener `1`, registered after the thrower, is not
invoked, contradicting the claim that a throwing listener does not prevent
delivery to later listeners. -/
theorem notify_throw_cex :
    notifyTrace (subscribeAdd (subscribeAdd emptyClient "a" { id := 0, kind := ListenerKind.ext }) "a" { id := 1, kind := ListenerKind.ext }) (fun i => decide (i = 0)) "a" = ([0], true)
    ∧ ¬ (1 ∈ (notifyTrace (subscribeAdd (subscribeAdd emptyClient "a" { id := 0, kind := ListenerKind.ext }) "a" { id := 1, kind := ListenerKind.ext }) (fun i => decide (i = 0)) "a").1) := by
  refine ⟨by decide, by decide⟩

theorem runNotify_no_throw (behav : Nat → Bool) : ∀ ls : List ListenerEntry,
    (∀ e ∈ ls, behav e.id = false) → runNotify behav ls = (ls.map (fun e => e.id), false) := by
  intro ls
  induction ls with
  | nil => intro _; rfl
  | cons e rest ih =>
      intro h
      have he : behav e.id = false := h e (by simp)
      have ht : ∀ x ∈ rest, behav x.id = false := fun x hx => h x (by simp [hx])
      simp [runNotify, he, ih ht]

/-- C6 (amended): `notify(k)` synchronously invokes the listeners currently
registered for `k`, in registration order and with no argument; when no
listener throws, every registered listener is invoked.  A listener that
throws, however, stops the `forEach` loop: listeners registered after it are
not invoked in that `notify` call (failures are not isolated per-listener;
the exception propagates out of `notify`). -/
theorem notify_all_delivered (behav : Nat → Bool) (c : QueryClient) (k : String)
    (h : ∀ e ∈ (c.listeners k).getD [], behav e.id = false) :
    notifyTrace c behav k = (((c.listeners k).getD []).map (fun e => e.id), false) := by
  unfold notifyTrace
  cases hl : c.listeners k with
  | none => rfl
  | some ls =>
      rw [hl] at h
      exact runNotify_no_throw behav ls h

/-- Witness for C6 (amended): two non-throwing listeners both get invoked in
registration order. -/
theorem notify_all_delivered_witness :
    notifyTrace (subscribeAdd (subscribeAdd emptyClient "a" { id := 0, kind := ListenerKind.ext }) "a" { id := 1, kind := ListenerKind.ext }) (fun _ => false) "a" = ([0, 1], false) := by
  have h := notify_all_delivered (fun _ => false)
    (subscribeAdd (subscribeAdd emptyClient "a" { id := 0, kind := ListenerKind.ext }) "a" { id := 1, kind := ListenerKind.ext }) "a" (fun e _ => rfl)
  rw [h]
  decide

theorem unsub_none_noop (c : QueryClient) (k : String) (e : ListenerEntry)
    (h : c.listeners k = none) : unsubscribeRun c k e = c := by
  unfold unsubscribeRun
  simp only [h]

/-- C9: the closure returned by `subscribe(k, l)` removes exactly `l` from
`k`'s listener list (the remaining list is the original filtered at `l`,
preserving the order and identity of all other listeners), leaves every
other key's listeners untouched, discards the whole set when the removal
empties it, is idempotent, is a no-op when the listener set for `k` was
already cleared, and never touches the query or fetch-function maps. -/
theorem unsubscribe_contract (c : QueryClient) (k : String) (e : ListenerEntry) :
    (e ∉ ((unsubscribeRun c k e).listeners k).getD [])
    ∧ ((unsubscribeRun c k e).listeners k).getD [] = ((c.listeners k).getD []).filter (fun x => decide (x ≠ e))
    ∧ (∀ k2, k2 ≠ k → (unsubscribeRun c k e).listeners k2 = c.listeners k2)
    ∧ (((c.listeners k).getD []).filter (fun x => decide (x ≠ e)) = [] → (unsubscribeRun c k e).listeners k = none)
    ∧ unsubscribeRun (unsubscribeRun c k e) k e = unsubscribeRun c k e
    ∧ (c.listeners k = none → unsubscribeRun c k e = c)
    ∧ (unsubscribeRun c k e).queries = c.queries
    ∧ (unsubscribeRun c k e).queryFns = c.queryFns := by
  have h2 : ((unsubscribeRun c k e).listeners k).getD [] = ((c.listeners k).getD []).filter (fun x => decide (x ≠ e)) := by
    unfold unsubscribeRun
    cases hl : c.listeners k with
    | none => simp [hl]
    | some ls =>
        simp only [hl]
        split
        next hemp =>
          have hnil : ls.filter (fun x => decide (x ≠ e)) = [] := by
            simpa using hemp
          simp [hnil]
          intro a ha
          by_contra hne
          have hmem : a ∈ ls.filter (fun x => decide (x ≠ e)) :=
            List.mem_filter.mpr ⟨ha, by simpa using hne⟩
          rw [hnil] at hmem
          cases hmem
        next hemp => simp
  have h1 : e ∉ ((unsubscribeRun c k e).listeners k).getD [] := by
    rw [h2]
    simp
  have h4 : ((c.listeners k).getD []).filter (fun x => decide (x ≠ e)) = [] → (unsubscribeRun c k e).listeners k = none := by
    intro hz
    unfold unsubscribeRun
    cases hl : c.listeners k with
    | none => simp [hl]
    | some ls =>
        rw [hl] at hz
        simp only [hl]
        have hemp : (ls.filter (fun x => decide (x ≠ e))).isEmpty = true := by
          have hz2 : ls.filter (fun x => decide (x ≠ e)) = [] := by simpa using hz
          rw [hz2]
          rfl
        rw [if_pos hemp]
        simp
  have h5 : unsubscribeRun (unsubscribeRun c k e) k e = unsubscribeRun c k e := by
    cases hl : c.listeners k with
    | none =>
        rw [unsub_none_noop c k e hl]
        exact unsub_none_noop c k e hl
    | some ls =>
        by_cases hemp : (ls.filter (fun x => decide (x ≠ e))).isEmpty = true
        · have ha : unsubscribeRun c k e = { c with listeners := upd c.listeners k none } := by
            unfold unsubscribeRun
            simp only [hl]
            rw [if_pos hemp]
          rw [ha]
          apply unsub_none_noop
          simp
        · have ha : unsubscribeRun c k e = { c with listeners := upd c.listeners k (some (ls.filter (fun x => decide (x ≠ e)))) } := by
            unfold unsubscribeRun
            simp only [hl]
            rw [if_neg hemp]
          rw [ha]
          unfold unsubscribeRun
          simp only [upd_same]
          have hff : (ls.filter (fun x => decide (x ≠ e))).filter (fun x => decide (x ≠ e)) = ls.filter (fun x => decide (x ≠ e)) := by
            apply List.filter_eq_self.mpr
            intro a ha2
            exact (List.mem_filter.mp ha2).2
          rw [hff]
          rw [if_neg hemp]
          apply QueryClient.ext
          · rfl
          · rfl
          · rw [upd_upd]
          · rfl
  exact ⟨h1, h2, fun k2 hk => unsubscribeRun_listeners_ne c k k2 e hk, h4, h5,
    unsub_none_noop c k e, unsubscribeRun_queries c k e, unsubscribeRun_queryFns c k e⟩

/-- Witness for C9 on a concrete client with listeners `0` and `1` for key
`"a"`: unsubscribing listener `0` leaves `[1]`, leaves key `"b"` untouched,
and doing it twice equals doing it once. -/
theorem unsubscribe_contract_witness :
    ((unsubscribeRun (subscribeAdd (subscribeAdd emptyClient "a" { id := 0, kind := ListenerKind.ext }) "a" { id := 1, kind := ListenerKind.ext }) "a" { id := 0, kind := ListenerKind.ext }).listeners "a").getD [] = [{ id := 1, kind := ListenerKind.ext }]
    ∧ (unsubscribeRun (subscribeAdd (subscribeAdd emptyClient "a" { id := 0, kind := ListenerKind.ext }) "a" { id := 1, kind := ListenerKind.ext }) "a" { id := 0, kind := ListenerKind.ext }).listeners "b" = (subscribeAdd (subscribeAdd emptyClient "a" { id := 0, kind := ListenerKind.ext }) "a" { id := 1, kind := ListenerKind.ext }).listeners "b"
    ∧ unsubscribeRun (unsubscribeRun (subscribeAdd (subscribeAdd emptyClient "a" { id := 0, kind := ListenerKind.ext }) "a" { id := 1, kind := ListenerKind.ext }) "a" { id := 0, kind := ListenerKind.ext }) "a" { id := 0, kind := ListenerKind.ext } = unsubscribeRun (subscribeAdd (subscribeAdd emptyClient "a" { id := 0, kind := ListenerKind.ext }) "a" { id := 1, kind := ListenerKind.ext }) "a" { id := 0, kind := ListenerKind.ext } := by
  have h := unsubscribe_contract (subscribeAdd (subscribeAdd emptyClient "a" { id := 0, kind := ListenerKind.ext }) "a" { id := 1, kind := ListenerKind.ext }) "a" { id := 0, kind := ListenerKind.ext }
  refine ⟨?_, h.2.2.1 "b" (by decide), h.2.2.2.2.1⟩
  rw [h.2.1]
  decide

/-- C8: `invalidateQuery(k)` is a no-op when the stored state or the
remembered fetch function is missing; when both exist it discards the state
for `k` and immediately runs `fetchQuery(k, rememberedFn, {staleTime:
previousState.staleTime})` with the most recently remembered fetch function:
the fetch function is invoked, a fresh in-flight fetch is registered with the
previous state's staleTime, and the new stored state is a `loading` state
with no data (the old state was discarded). -/
theorem invalidateQuery_contract (s : Sys) (k : String) (now : Nat) :
    ((s.client.queries k = none ∨ s.client.queryFns k = none) → Sys.step s (Op.invalidate k now) = s)
    ∧ (∀ (f : Nat) (qs : QueryState), s.client.queryFns k = some f → s.client.queries k = some qs →
        (Sys.step s (Op.invalidate k now)).fnCalls = s.fnCalls ++ [(k, f)]
        ∧ (Sys.step s (Op.invalidate k now)).client.queries k = some { data := JSVal.undef, status := QueryStatus.loading, error := none, lastFetchedAt := 0, staleTime := qs.staleTime }
        ∧ (Sys.step s (Op.invalidate k now)).pending = s.pending ++ [{ key := k, staleTime := qs.staleTime, prevData := JSVal.undef, prevLastFetchedAt := 0 }]) := by
  constructor
  · intro h
    rcases h with hq | hf
    · cases hf : s.client.queryFns k with
      | none => simp [Sys.step, hf]
      | some f => simp [Sys.step, hf, hq]
    · simp [Sys.step, hf]
  · intro f qs hf hq
    unfold Sys.step
    simp only [hf, hq]
    unfold fetchQuerySync
    simp only [upd_same]
    simp only [startFetchPath]
    refine ⟨trivial, ?_, rfl⟩
    rw [setQueryState_fst_queries]
    simp

/-- Witness for C8: no-op on an unknown key, and discard-and-refetch with
the stored staleTime on a populated key. -/
theorem invalidateQuery_contract_witness :
    Sys.step (runOps initSys [Op.fetch "a" 1 50 100, Op.complete 0 (Except.ok (JSVal.val 5)) 100]) (Op.invalidate "zzz" 7) = runOps initSys [Op.fetch "a" 1 50 100, Op.complete 0 (Except.ok (JSVal.val 5)) 100]
    ∧ (Sys.step (runOps initSys [Op.fetch "a" 1 50 100, Op.complete 0 (Except.ok (JSVal.val 5)) 100]) (Op.invalidate "a" 7)).fnCalls = [("a", 1), ("a", 1)]
    ∧ (Sys.step (runOps initSys [Op.fetch "a" 1 50 100, Op.complete 0 (Except.ok (JSVal.val 5)) 100]) (Op.invalidate "a" 7)).client.queries "a" = some { data := JSVal.undef, status := QueryStatus.loading, error := none, lastFetchedAt := 0, staleTime := 50 } := by
  refine ⟨(invalidateQuery_contract (runOps initSys [Op.fetch "a" 1 50 100, Op.complete 0 (Except.ok (JSVal.val 5)) 100]) "zzz" 7).1 (Or.inl (by decide)), ?_, ?_⟩
  · have h := (invalidateQuery_contract (runOps initSys [Op.fetch "a" 1 50 100, Op.complete 0 (Except.ok (JSVal.val 5)) 100]) "a" 7).2 1 { data := JSVal.val 5, status := QueryStatus.success, error := none, lastFetchedAt := 100, staleTime := 50 } (by decide) (by decide)
    exact h.1.trans (by decide)
  · exact ((invalidateQuery_contract (runOps initSys [Op.fetch "a" 1 50 100, Op.complete 0 (Except.ok (JSVal.val 5)) 100]) "a" 7).2 1 { data := JSVal.val 5, status := QueryStatus.success, error := none, lastFetchedAt := 100, staleTime := 50 } (by decide) (by decide)).2.1

/-! Characterization of the query map after the synchronous prefix. -/

theorem fetchQuerySync_queries_cases (c : QueryClient) (k : String) (f s now w : Nat) :
    (fetchQuerySync c k f s now w).client.queries = c.queries
    ∨ ((fetchQuerySync c k f s now w).client.queries = upd c.queries k (some { data := ((c.queries k).map (fun q => q.data)).getD JSVal.undef, status := QueryStatus.loading, error := none, lastFetchedAt := ((c.queries k).map (fun q => q.lastFetchedAt)).getD 0, staleTime := s })
        ∧ (∀ st, c.queries k = some st → st.status ≠ QueryStatus.loading)) := by
  cases hq : c.queries k with
  | none =>
      right
      constructor
      · rw [fetchQuerySync_start_none c k f s now w hq, startFetchPath_client_queries]
      · intro st hst
        cases hst
  | some st =>
      by_cases h1 : st.status = QueryStatus.success ∧ now - st.lastFetchedAt < st.staleTime
      · left
        rw [fetchQuerySync_cacheHit_eq c k f s now w st hq h1.1 h1.2]
      · by_cases h2 : st.status = QueryStatus.loading
        · left
          rw [fetchQuerySync_loading_eq c k f s now w st hq h2]
          rw [show ({ client := subscribeAdd { c with queryFns := upd c.queryFns k (some f) } k { id := w, kind := ListenerKind.waiter }, outcome := SyncOutcome.dedupJoin w, events := [] } : FQResult).client = subscribeAdd { c with queryFns := upd c.queryFns k (some f) } k { id := w, kind := ListenerKind.waiter } from rfl]
          rw [subscribeAdd_queries]
        · right
          constructor
          · rw [fetchQuerySync_start_some c k f s now w st hq h1 h2, startFetchPath_client_queries]
          · intro st2 hst2
            injection hst2 with h3
            exact h3 ▸ h2

/-! How each event-loop step transforms the client. -/

theorem step_fetch_client (s : Sys) (key : String) (f stale now : Nat) :
    (Sys.step s (Op.fetch key f stale now)).client = (fetchQuerySync s.client key f stale now s.nextWaiter).client := by
  simp only [Sys.step]
  split <;> rfl

theorem step_complete_none (s : Sys) (idx : Nat) (oc : Except Thrown JSVal) (now : Nat)
    (hp : s.pending[idx]? = none) : Sys.step s (Op.complete idx oc now) = s := by
  simp only [Sys.step]
  simp only [hp]

theorem step_complete_client (s : Sys) (idx : Nat) (oc : Except Thrown JSVal) (now : Nat)
    (pf : PendingFetch) (hp : s.pending[idx]? = some pf) :
    (Sys.step s (Op.complete idx oc now)).client = (completeFetchWrite s.client pf oc now).client := by
  simp only [Sys.step]
  simp only [hp]

theorem step_invalidate_noop (s : Sys) (key : String) (now : Nat)
    (h : s.client.queries key = none ∨ s.client.queryFns key = none) :
    Sys.step s (Op.invalidate key now) = s := by
  rcases h with hq | hf
  · cases hf2 : s.client.queryFns key with
    | none => simp [Sys.step, hf2]
    | some f => simp [Sys.step, hf2, hq]
  · simp [Sys.step, hf]

theorem step_invalidate_client (s : Sys) (key : String) (now f : Nat) (qs : QueryState)
    (hf : s.client.queryFns key = some f) (hq : s.client.queries key = some qs) :
    (Sys.step s (Op.invalidate key now)).client = (fetchQuerySync { s.client with queries := upd s.client.queries key none } key f qs.staleTime now s.nextWaiter).client := by
  simp only [Sys.step]
  simp only [hf, hq]
  split <;> rfl

theorem step_preserves_good (s : Sys) (op : Op)
    (hgood : ∀ k st, s.client.queries k = some st → (st.status = QueryStatus.success → st.data ≠ JSVal.undef ∧ st.error = none) ∧ (st.status = QueryStatus.error → st.error ≠ none))
    (hok : presentOk op = true) :
    ∀ k st, (Sys.step s op).client.queries k = some st → (st.status = QueryStatus.success → st.data ≠ JSVal.undef ∧ st.error = none) ∧ (st.status = QueryStatus.error → st.error ≠ none) := by
  cases op with
  | fetch key f stale now =>
      intro k st hst
      rw [step_fetch_client] at hst
      rcases fetchQuerySync_queries_cases s.client key f stale now s.nextWaiter with hsame | ⟨hupd, _⟩
      · rw [hsame] at hst
        exact hgood k st hst
      · rw [hupd] at hst
        by_cases hk : k = key
        · rw [hk, upd_same] at hst
          injection hst with h3
          rw [← h3]
          constructor
          · intro hx
            simp at hx
          · intro hx
            simp at hx
        · rw [upd_ne _ _ _ _ hk] at hst
          exact hgood k st hst
  | complete idx oc now =>
      intro k st hst
      cases hp : s.pending[idx]? with
      | none =>
          rw [step_complete_none s idx oc now hp] at hst
          exact hgood k st hst
      | some pf =>
          rw [step_complete_client s idx oc now pf hp] at hst
          cases oc with
          | ok v =>
              have hv : v ≠ JSVal.undef := by simpa [presentOk] using hok
              rw [(completeFetchWrite_ok s.client pf v now).2.1] at hst
              by_cases hk : k = pf.key
              · rw [hk, upd_same] at hst
                injection hst with h3
                rw [← h3]
                constructor
                · intro _
                  exact ⟨hv, rfl⟩
                · intro hx
                  simp at hx
              · rw [upd_ne _ _ _ _ hk] at hst
                exact hgood k st hst
          | error e =>
              rw [(completeFetchWrite_error s.client pf e now).2.1] at hst
              by_cases hk : k = pf.key
              · rw [hk, upd_same] at hst
                injection hst with h3
                rw [← h3]
                constructor
                · intro hx
                  simp at hx
                · intro _
                  simp
              · rw [upd_ne _ _ _ _ hk] at hst
                exact hgood k st hst
  | invalidate key now =>
      intro k st hst
      cases hf : s.client.queryFns key with
      | none =>
          rw [step_invalidate_noop s key now (Or.inr hf)] at hst
          exact hgood k st hst
      | some f =>
          cases hq : s.client.queries key with
          | none =>
              rw [step_invalidate_noop s key now (Or.inl hq)] at hst
              exact hgood k st hst
          | some qs =>
              rw [step_invalidate_client s key now f qs hf hq] at hst
              rcases fetchQuerySync_queries_cases { s.client with queries := upd s.client.queries key none } key f qs.staleTime now s.nextWaiter with hsame | ⟨hupd, _⟩
              · rw [hsame] at hst
                by_cases hk : k = key
                · rw [hk] at hst
                  rw [show ({ s.client with queries := upd s.client.queries key none } : QueryClient).queries = upd s.client.queries key none from rfl, upd_same] at hst
                  cases hst
                · rw [show ({ s.client with queries := upd s.client.queries key none } : QueryClient).queries = upd s.client.queries key none from rfl, upd_ne _ _ _ _ hk] at hst
                  exact hgood k st hst
              · rw [hupd] at hst
                by_cases hk : k = key
                · rw [hk, upd_same] at hst
                  injection hst with h3
                  rw [← h3]
                  constructor
                  · intro hx
                    simp at hx
                  · intro hx
                    simp at hx
                · rw [upd_ne _ _ _ _ hk] at hst
                  rw [show ({ s.client with queries := upd s.client.queries key none } : QueryClient).queries = upd s.client.queries key none from rfl, upd_ne _ _ _ _ hk] at hst
                  exact hgood k st hst

/-- C7 counterexample: a fetch function that resolves with the absent value
(`undefined`) yields a reachable state with `status = 'success'` and `data`
absent, so the claimed invariant "`status = success` implies `data` is
present" does not hold for every fetch function. -/
theorem invariant_undef_cex :
    (runOps initSys [Op.fetch "a" 1 0 0, Op.complete 0 (Except.ok JSVal.undef) 5]).client.queries "a" = some { data := JSVal.undef, status := QueryStatus.success, error := none, lastFetchedAt := 5, staleTime := 0 } := by
  decide

/-- C7 (amended): in every state reachable by `fetchQuery` calls, fetch
completions and `invalidateQuery` calls, and for every key with an entry:
`status = 'success'` implies `error = null`, and implies `data` is present
provided no fetch function ever resolved with an absent (`undefined`) value;
`status = 'error'` implies `error` is present, while `data` may still hold
the last successful value. -/
theorem state_invariant_present (ops : List Op)
    (hall : ∀ op ∈ ops, presentOk op = true) :
    ∀ k st, (runOps initSys ops).client.queries k = some st →
      (st.status = QueryStatus.success → st.data ≠ JSVal.undef ∧ st.error = none)
      ∧ (st.status = QueryStatus.error → st.error ≠ none) := by
  have main : ∀ (l : List Op) (s : Sys),
      (∀ k st, s.client.queries k = some st → (st.status = QueryStatus.success → st.data ≠ JSVal.undef ∧ st.error = none) ∧ (st.status = QueryStatus.error → st.error ≠ none)) →
      (∀ op ∈ l, presentOk op = true) →
      ∀ k st, (runOps s l).client.queries k = some st → (st.status = QueryStatus.success → st.data ≠ JSVal.undef ∧ st.error = none) ∧ (st.status = QueryStatus.error → st.error ≠ none) := by
    intro l
    induction l with
    | nil => intro s hs _; exact hs
    | cons op rest ih =>
        intro s hs hall2
        exact ih (Sys.step s op) (step_preserves_good s op hs (hall2 op (by simp)))
          (fun o ho => hall2 o (by simp [ho]))
  exact main ops initSys (fun k st hst => Option.noConfusion hst) hall

/-- Witness for C7 (amended) on a run whose completion resolves with a
present value. -/
theorem state_invariant_present_witness :
    (({ data := JSVal.val 3, status := QueryStatus.success, error := none, lastFetchedAt := 5, staleTime := 0 } : QueryState).status = QueryStatus.success → ({ data := JSVal.val 3, status := QueryStatus.success, error := none, lastFetchedAt := 5, staleTime := 0 } : QueryState).data ≠ JSVal.undef ∧ ({ data := JSVal.val 3, status := QueryStatus.success, error := none, lastFetchedAt := 5, staleTime := 0 } : QueryState).error = none)
    ∧ (({ data := JSVal.val 3, status := QueryStatus.success, error := none, lastFetchedAt := 5, staleTime := 0 } : QueryState).status = QueryStatus.error → ({ data := JSVal.val 3, status := QueryStatus.success, error := none, lastFetchedAt := 5, staleTime := 0 } : QueryState).error ≠ none) := by
  exact state_invariant_present [Op.fetch "a" 1 0 0, Op.complete 0 (Except.ok (JSVal.val 3)) 5]
    (by decide) "a" { data := JSVal.val 3, status := QueryStatus.success, error := none, lastFetchedAt := 5, staleTime := 0 } (by decide)

/-! Inversion facts for the fetch path, and bookkeeping lemmas for the
single-flight analysis. -/

theorem startFetchPath_outcome (c : QueryClient) (k : String) (ex : Option QueryState) (stale : Nat) :
    (startFetchPath c k ex stale).outcome = SyncOutcome.startFetch { key := k, staleTime := stale, prevData := (ex.map (fun q => q.data)).getD JSVal.undef, prevLastFetchedAt := (ex.map (fun q => q.lastFetchedAt)).getD 0 } := rfl

theorem fetchQuerySync_start_facts (c : QueryClient) (k : String) (f s now w : Nat) (pf : PendingFetch)
    (h : (fetchQuerySync c k f s now w).outcome = SyncOutcome.startFetch pf) :
    pf.key = k
    ∧ (fetchQuerySync c k f s now w).client.queries = upd c.queries k (some { data := pf.prevData, status := QueryStatus.loading, error := none, lastFetchedAt := pf.prevLastFetchedAt, staleTime := s })
    ∧ (∀ st, c.queries k = some st → st.status ≠ QueryStatus.loading) := by
  cases hq : c.queries k with
  | none =>
      rw [fetchQuerySync_start_none c k f s now w hq] at h ⊢
      rw [startFetchPath_outcome] at h
      injection h with h2
      rw [← h2]
      refine ⟨rfl, ?_, fun st hst => Option.noConfusion hst⟩
      rw [startFetchPath_client_queries]
  | some st =>
      by_cases h1 : st.status = QueryStatus.success ∧ now - st.lastFetchedAt < st.staleTime
      · rw [fetchQuerySync_cacheHit_eq c k f s now w st hq h1.1 h1.2] at h
        simp at h
      · by_cases h2 : st.status = QueryStatus.loading
        · rw [fetchQuerySync_loading_eq c k f s now w st hq h2] at h
          simp at h
        · rw [fetchQuerySync_start_some c k f s now w st hq h1 h2] at h ⊢
          rw [startFetchPath_outcome] at h
          injection h with h3
          rw [← h3]
          refine ⟨rfl, ?_, ?_⟩
          · rw [startFetchPath_client_queries]
          · intro st2 hst2
            injection hst2 with h4
            exact h4 ▸ h2

theorem fetchQuerySync_nonstart_queries (c : QueryClient) (k : String) (f s now w : Nat)
    (h : ∀ pf, (fetchQuerySync c k f s now w).outcome ≠ SyncOutcome.startFetch pf) :
    (fetchQuerySync c k f s now w).client.queries = c.queries := by
  cases hq : c.queries k with
  | none =>
      exact absurd (by rw [fetchQuerySync_start_none c k f s now w hq, startFetchPath_outcome]) (h _)
  | some st =>
      by_cases h1 : st.status = QueryStatus.success ∧ now - st.lastFetchedAt < st.staleTime
      · rw [fetchQuerySync_cacheHit_eq c k f s now w st hq h1.1 h1.2]
      · by_cases h2 : st.status = QueryStatus.loading
        · rw [fetchQuerySync_loading_eq c k f s now w st hq h2]
          rw [show ({ client := subscribeAdd { c with queryFns := upd c.queryFns k (some f) } k { id := w, kind := ListenerKind.waiter }, outcome := SyncOutcome.dedupJoin w, events := [] } : FQResult).client = subscribeAdd { c with queryFns := upd c.queryFns k (some f) } k { id := w, kind := ListenerKind.waiter } from rfl]
          rw [subscribeAdd_queries]
        · exact absurd (by rw [fetchQuerySync_start_some c k f s now w st hq h1 h2, startFetchPath_outcome]) (h _)

theorem step_fetch_start (s : Sys) (key : String) (f stale now : Nat) (pf : PendingFetch)
    (h : (fetchQuerySync s.client key f stale now s.nextWaiter).outcome = SyncOutcome.startFetch pf) :
    (Sys.step s (Op.fetch key f stale now)).pending = s.pending ++ [pf]
    ∧ (Sys.step s (Op.fetch key f stale now)).violation = (s.violation || s.pending.any (fun p => p.key == key)) := by
  simp only [Sys.step]
  simp only [h]
  exact ⟨trivial, trivial⟩

theorem step_fetch_nonstart (s : Sys) (key : String) (f stale now : Nat)
    (h : ∀ pf, (fetchQuerySync s.client key f stale now s.nextWaiter).outcome ≠ SyncOutcome.startFetch pf) :
    (Sys.step s (Op.fetch key f stale now)).pending = s.pending
    ∧ (Sys.step s (Op.fetch key f stale now)).violation = s.violation := by
  simp only [Sys.step]
  exact ⟨trivial, trivial⟩

theorem step_complete_pending (s : Sys) (idx : Nat) (oc : Except Thrown JSVal) (now : Nat)
    (pf : PendingFetch) (hp : s.pending[idx]? = some pf) :
    (Sys.step s (Op.complete idx oc now)).pending = s.pending.eraseIdx idx
    ∧ (Sys.step s (Op.complete idx oc now)).violation = s.violation := by
  simp only [Sys.step]
  simp only [hp]
  exact ⟨trivial, trivial⟩

theorem filter_length_eraseIdx (p : PendingFetch → Bool) :
    ∀ (l : List PendingFetch) (i : Nat) (pf : PendingFetch), l[i]? = some pf →
      ((l.eraseIdx i).filter p).length + (if p pf then 1 else 0) = (l.filter p).length := by
  intro l
  induction l with
  | nil =>
      intro i pf h
      simp at h
  | cons a t ih =>
      intro i pf h
      cases i with
      | zero =>
          rw [List.getElem?_cons_zero] at h
          injection h with h2
          subst h2
          show (t.filter p).length + (if p a then 1 else 0) = ((a :: t).filter p).length
          rw [List.filter_cons]
          by_cases hp2 : p a = true
          · simp [hp2]
          · simp [hp2]
      | succ j =>
          rw [List.getElem?_cons_succ] at h
          have hi := ih j pf h
          show ((a :: t.eraseIdx j).filter p).length + (if p pf then 1 else 0) = ((a :: t).filter p).length
          rw [List.filter_cons, List.filter_cons]
          by_cases hp2 : p a = true
          · simp only [hp2, if_true, List.length_cons]
            omega
          · simp only [hp2, if_false, Bool.false_eq_true]
            omega

theorem pendingFor_append_one (l : List PendingFetch) (pf : PendingFetch) (k2 : String) :
    ((l ++ [pf]).filter (fun p => p.key == k2)).length = (l.filter (fun p => p.key == k2)).length + (if pf.key = k2 then 1 else 0) := by
  rw [List.filter_append, List.length_append]
  congr 1
  rw [List.filter_cons]
  by_cases hb : pf.key = k2
  · have hbeq : (pf.key == k2) = true := beq_iff_eq.mpr hb
    simp [hbeq, hb]
  · have hbeq : (pf.key == k2) = false := beq_eq_false_iff_ne.mpr hb
    simp [hbeq, hb]

theorem step_preserves_single_flight (s : Sys) (op : Op) (hfc : isFC op = true)
    (hv : s.violation = false)
    (hinv : ∀ k, pendingFor s k = (if loadingAt s.client k then 1 else 0)) :
    (Sys.step s op).violation = false
    ∧ (∀ k, pendingFor (Sys.step s op) k = (if loadingAt (Sys.step s op).client k then 1 else 0)) := by
  cases op with
  | invalidate key now => simp [isFC] at hfc
  | fetch key f stale now =>
      by_cases hstart : ∃ pf, (fetchQuerySync s.client key f stale now s.nextWaiter).outcome = SyncOutcome.startFetch pf
      · obtain ⟨pf, hpf⟩ := hstart
        have hfacts := fetchQuerySync_start_facts s.client key f stale now s.nextWaiter pf hpf
        have hsp := step_fetch_start s key f stale now pf hpf
        have hnl : loadingAt s.client key = false := by
          unfold loadingAt
          cases hq2 : s.client.queries key with
          | none => rfl
          | some st => simp [hfacts.2.2 st hq2]
        have h0 : pendingFor s key = 0 := by
          rw [hinv key, hnl]
          rfl
        have hfe : s.pending.filter (fun p => p.key == key) = [] := by
          have h02 := h0
          unfold pendingFor at h02
          exact List.length_eq_zero.mp h02
        have hany : s.pending.any (fun p => p.key == key) = false := by
          cases hb : s.pending.any (fun p => p.key == key) with
          | false => rfl
          | true =>
              obtain ⟨x, hx, hpx⟩ := List.any_eq_true.mp hb
              have hmem : x ∈ s.pending.filter (fun p => p.key == key) := List.mem_filter.mpr ⟨hx, hpx⟩
              rw [hfe] at hmem
              cases hmem
        have hqstep : (Sys.step s (Op.fetch key f stale now)).client.queries = upd s.client.queries key (some { data := pf.prevData, status := QueryStatus.loading, error := none, lastFetchedAt := pf.prevLastFetchedAt, staleTime := stale }) := by
          rw [step_fetch_client]
          exact hfacts.2.1
        constructor
        · rw [hsp.2, hv, hany]
          rfl
        · intro k2
          have hpend : pendingFor (Sys.step s (Op.fetch key f stale now)) k2 = pendingFor s k2 + (if pf.key = k2 then 1 else 0) := by
            unfold pendingFor
            rw [hsp.1]
            exact pendingFor_append_one s.pending pf k2
          by_cases hk : k2 = key
          · have hload : loadingAt (Sys.step s (Op.fetch key f stale now)).client k2 = true := by
              unfold loadingAt
              rw [hqstep, hk, upd_same]
              rfl
            rw [hpend, hload, hk, h0, hfacts.1]
            simp
          · have hload : loadingAt (Sys.step s (Op.fetch key f stale now)).client k2 = loadingAt s.client k2 := by
              unfold loadingAt
              rw [hqstep, upd_ne _ _ _ _ hk]
            have hpfk : ¬(pf.key = k2) := by
              rw [hfacts.1]
              exact fun hx => hk hx.symm
            rw [hpend, hload, if_neg hpfk, hinv k2]
            simp
      · have hns : ∀ pf, (fetchQuerySync s.client key f stale now s.nextWaiter).outcome ≠ SyncOutcome.startFetch pf := by
          intro pf hx
          exact hstart ⟨pf, hx⟩
        have hsp := step_fetch_nonstart s key f stale now hns
        have hqstep : (Sys.step s (Op.fetch key f stale now)).client.queries = s.client.queries := by
          rw [step_fetch_client]
          exact fetchQuerySync_nonstart_queries s.client key f stale now s.nextWaiter hns
        constructor
        · rw [hsp.2, hv]
        · intro k2
          have hload : loadingAt (Sys.step s (Op.fetch key f stale now)).client k2 = loadingAt s.client k2 := by
            unfold loadingAt
            rw [hqstep]
          have hpend : pendingFor (Sys.step s (Op.fetch key f stale now)) k2 = pendingFor s k2 := by
            unfold pendingFor
            rw [hsp.1]
          rw [hpend, hload, hinv k2]
  | complete idx oc now =>
      cases hp : s.pending[idx]? with
      | none =>
          rw [step_complete_none s idx oc now hp]
          exact ⟨hv, hinv⟩
      | some pf =>
          have hsp := step_complete_pending s idx oc now pf hp
          have hex : ∃ newSt : QueryState, newSt.status ≠ QueryStatus.loading ∧ (Sys.step s (Op.complete idx oc now)).client.queries = upd s.client.queries pf.key (some newSt) := by
            rw [step_complete_client s idx oc now pf hp]
            cases oc with
            | ok v =>
                exact ⟨{ data := v, status := QueryStatus.success, error := none, lastFetchedAt := now, staleTime := pf.staleTime }, by simp, (completeFetchWrite_ok s.client pf v now).2.1⟩
            | error e =>
                exact ⟨{ data := pf.prevData, status := QueryStatus.error, error := some (normalizeError e), lastFetchedAt := pf.prevLastFetchedAt, staleTime := pf.staleTime }, by simp, (completeFetchWrite_error s.client pf e now).2.1⟩
          obtain ⟨newSt, hnsload, hqstep⟩ := hex
          constructor
          · rw [hsp.2, hv]
          · intro k2
            have hpend : pendingFor (Sys.step s (Op.complete idx oc now)) k2 + (if (pf.key == k2) = true then 1 else 0) = pendingFor s k2 := by
              unfold pendingFor
              rw [hsp.1]
              exact filter_length_eraseIdx (fun p => p.key == k2) s.pending idx pf hp
            by_cases hk : k2 = pf.key
            · have hbeq : (pf.key == k2) = true := beq_iff_eq.mpr hk.symm
              have hge : 1 ≤ pendingFor s k2 := by
                rw [← hpend]
                simp only [hbeq, if_true]
                omega
              have hload1 : loadingAt s.client k2 = true := by
                by_contra hc
                have hc2 : loadingAt s.client k2 = false := by
                  cases hb2 : loadingAt s.client k2 with
                  | false => rfl
                  | true => exact absurd hb2 hc
                rw [hinv k2, hc2] at hge
                simp at hge
              have hpre1 : pendingFor s k2 = 1 := by
                rw [hinv k2, hload1]
                rfl
              have hnow0 : pendingFor (Sys.step s (Op.complete idx oc now)) k2 = 0 := by
                have h9 := hpend
                rw [hpre1] at h9
                simp only [hbeq, if_true] at h9
                omega
              have hloadnow : loadingAt (Sys.step s (Op.complete idx oc now)).client k2 = false := by
                unfold loadingAt
                rw [hqstep, hk]
                simp [hnsload]
              rw [hnow0, hloadnow]
              rfl
            · have hbeq : (pf.key == k2) = false := beq_eq_false_iff_ne.mpr (fun hx => hk hx.symm)
              have hpend2 : pendingFor (Sys.step s (Op.complete idx oc now)) k2 = pendingFor s k2 := by
                rw [← hpend]
                simp [hbeq]
              have hloadnow : loadingAt (Sys.step s (Op.complete idx oc now)).client k2 = loadingAt s.client k2 := by
                unfold loadingAt
                rw [hqstep, upd_ne _ _ _ _ hk]
              rw [hpend2, hloadnow, hinv k2]

/-- C3 counterexample: `invalidateQuery` during an in-flight fetch starts a
second fetch for the same key while the first is still pending.  After
`fetchQuery("a", …)` (one fetch in flight) and `invalidateQuery("a")`, the
fetch function has been invoked twice, two fetches for `"a"` are pending
simultaneously, and the overlap flag is raised — so the claimed
at-most-one-fetch-in-flight property fails for sequences that include
`invalidateQuery`. -/
theorem single_flight_invalidate_cex :
    (runOps initSys [Op.fetch "a" 1 0 0, Op.invalidate "a" 0]).violation = true
    ∧ (runOps initSys [Op.fetch "a" 1 0 0, Op.invalidate "a" 0]).fnCalls = [("a", 1), ("a", 1)]
    ∧ (runOps initSys [Op.fetch "a" 1 0 0, Op.invalidate "a" 0]).pending = [{ key := "a", staleTime := 0, prevData := JSVal.undef, prevLastFetchedAt := 0 }, { key := "a", staleTime := 0, prevData := JSVal.undef, prevLastFetchedAt := 0 }] := by
  refine ⟨by decide, by decide, by decide⟩

/-- C3 (amended): for every sequence of `fetchQuery` calls and fetch
completions — with no `invalidateQuery` — at most one fetch is ever in
flight per key: no fetch function invocation starts while a previous
invocation for the same key is still pending (the overlap flag stays
false), and `fetchQuery` itself never starts a fetch for a key whose state
has `status = 'loading'` (it joins the in-flight fetch instead).
`invalidateQuery` issued while a fetch is in flight, however, starts a
second concurrent fetch (see the counterexample). -/
theorem single_flight_no_invalidate :
    (∀ (ops : List Op), (∀ op ∈ ops, isFC op = true) → (runOps initSys ops).violation = false)
    ∧ (∀ (c : QueryClient) (k : String) (f s now w : Nat) (st : QueryState),
        c.queries k = some st → st.status = QueryStatus.loading →
        (fetchQuerySync c k f s now w).outcome = SyncOutcome.dedupJoin w) := by
  constructor
  · intro ops hfc
    have main : ∀ (l : List Op) (s : Sys), (∀ op ∈ l, isFC op = true) → s.violation = false →
        (∀ k, pendingFor s k = (if loadingAt s.client k then 1 else 0)) →
        (runOps s l).violation = false := by
      intro l
      induction l with
      | nil => intro s _ hv _; exact hv
      | cons op rest ih =>
          intro s hall hv hinv
          have hstep := step_preserves_single_flight s op (hall op (by simp)) hv hinv
          exact ih (Sys.step s op) (fun o ho => hall o (by simp [ho])) hstep.1 hstep.2
    exact main ops initSys hfc rfl (fun k => rfl)
  · intro c k f s now w st hq hl
    rw [fetchQuerySync_loading_eq c k f s now w st hq hl]

/-- Witness for C3 (amended): a run with two concurrent calls and a
completion keeps the overlap flag false, and a call on a loading key joins
the in-flight fetch. -/
theorem single_flight_no_invalidate_witness :
    (runOps initSys [Op.fetch "a" 1 0 0, Op.fetch "a" 1 0 0, Op.complete 0 (Except.ok (JSVal.val 2)) 3]).violation = false
    ∧ (fetchQuerySync (runOps initSys [Op.fetch "a" 1 0 0]).client "a" 2 0 5 7).outcome = SyncOutcome.dedupJoin 7 := by
  refine ⟨single_flight_no_invalidate.1 [Op.fetch "a" 1 0 0, Op.fetch "a" 1 0 0, Op.complete 0 (Except.ok (JSVal.val 2)) 3] (by decide), ?_⟩
  rw [single_flight_no_invalidate.2 (runOps initSys [Op.fetch "a" 1 0 0]).client "a" 2 0 5 7 { data := JSVal.undef, status := QueryStatus.loading, error := none, lastFetchedAt := 0, staleTime := 0 } (by decide) rfl]
